import Mathlib

/-!
Verification development for the hierarchical document-encoder repository.

The development shallowly embeds the two core source files:

* `data_collator.py` — `CustomDataCollator`, a dynamic-padding collator for
  jagged lists of sentences (`__call__`, `pad_sentence`, `pad_document`);
* `models.py` — the hierarchical models (`HiearchicalModel` freezing logic,
  `ContrastiveModel.forward`, `HierarchicalClassificationModel.forward`).

Python lists are embedded as Lean lists; Python in-place mutation of lists
(`pad_document` mutates the lists built by `pad_sentence`) is embedded with an
explicit heap of list cells, so that statements about mutation of the input
records are meaningful.  Python exceptions (`KeyError`, `AssertionError`,
`ValueError`, `IndexError`, `TypeError`) are embedded as an error type in
`Except`.
-/

/-- Python exception kinds raised by the embedded code. -/
inductive PyError where
  /-- `instance[key]` on a missing dict key. -/
  | keyError (key : String)
  /-- a dict value of the wrong shape for the requested operation. -/
  | typeError (key : String)
  /-- a failed `assert` with its message. -/
  | assertionError (msg : String)
  /-- `max(())` on an empty sequence. -/
  | valueErrorMaxEmpty
  /-- `xs[0]` on an empty list. -/
  | indexError
  /-- `torch.tensor` on a jagged nested list. -/
  | valueErrorJagged
  /-- a torch loss function applied to a tensor of the wrong dtype. -/
  | runtimeError (msg : String)
deriving DecidableEq, Repr

/-- A document: a Python list of sentences, each a list of token ids
(`data_collator.py` works with `list[list[int]]` values). -/
abbrev Doc := List (List Int)

/-- A heap of mutable Python list-of-list cells.  `next` is the next fresh
address; every allocated address is below `next`. -/
structure Heap where
  next : Nat
  mem : Nat → Doc

/-- Allocate a fresh cell holding `d` (a Python list display such as the list
comprehensions in `pad_sentence` creates a fresh object). -/
def Heap.alloc (h : Heap) (d : Doc) : Nat × Heap :=
  (h.next, ⟨h.next + 1, fun r => if r = h.next then d else h.mem r⟩)

/-- Overwrite the cell at `r` (in-place mutation, as done by `+=` and slice
assignment inside `pad_document`). -/
def Heap.write (h : Heap) (r : Nat) (d : Doc) : Heap :=
  ⟨h.next, fun x => if x = r then d else h.mem x⟩

/-- One value of a feature dict: either a (reference to a) list-of-lists —
the `article_i` / `mask_i` entries — or a plain scalar such as a label. -/
inductive FeatVal where
  | docRef (r : Nat)
  | intVal (v : Int)
deriving DecidableEq, Repr

/-- A feature record of the dataset: a Python dict from key to value.  Keys
are unique in a dict; lookup takes the first binding. -/
abbrev Feature := List (String × FeatVal)

/-- Embeds `instance[key]` where the code then uses the value as a
list-of-lists: missing key is a `KeyError`; a scalar value would make the
subsequent iteration fail. -/
def lookupDocRef (f : Feature) (key : String) : Except PyError Nat :=
  match f.find? (fun kv => kv.1 = key) with
  | none => .error (.keyError key)
  | some kv =>
    match kv.2 with
    | .docRef r => .ok r
    | .intVal _ => .error (.typeError key)

/-- Embeds Python `max` on a list of naturals: raises `ValueError` on an
empty sequence. -/
def pyMax : List Nat → Except PyError Nat
  | [] => .error .valueErrorMaxEmpty
  | x :: xs => .ok (xs.foldl max x)

/-- Embeds the `CustomDataCollator` dataclass of `data_collator.py`.  The
`tokenizer` field is only ever used through
`tokenizer.convert_tokens_to_ids("[PAD]")`, embedded as `padTokenId`; the
`return_tensors` field is never read by the code. -/
structure CustomDataCollator where
  padTokenId : Int
  max_sentence_len : Nat := 128
  max_document_len : Nat := 32

/-- Embeds `CustomDataCollator.pad_sentence` (lines 50–64): each sentence of
the document and of its mask mirror is right-padded to `senLen` with the pad
token id (resp. `0`).  Python evaluates `[x] * n` with `n ≤ 0` to the empty
list, which truncated subtraction on `Nat` reproduces: a sentence longer than
`senLen` is returned unchanged, not truncated. -/
def CustomDataCollator.pad_sentence (c : CustomDataCollator) (senLen : Nat)
    (tokens masks : Doc) : Doc × Doc :=
  (tokens.map (fun s => s ++ List.replicate (senLen - s.length) c.padTokenId),
   masks.map (fun s => s ++ List.replicate (senLen - s.length) (0 : Int)))

/-- Embeds `CustomDataCollator.pad_document` (lines 66–82).  The Python code
first builds `mask_padding_array` from `masks[0]` and `sentence_padding_array`
from `sentences[0]` (an `IndexError` on an empty list), then either appends
padding rows up to `doc_len` (the two `range(doc_len - len(..))` counts are
clamped at zero independently) or truncates both lists to their first
`doc_len` rows.  The mutation of the argument lists is performed by the
caller (`processFeature`) as a heap write of the returned value. -/
def CustomDataCollator.pad_document (c : CustomDataCollator) (docLen : Nat)
    (sentences masks : Doc) : Except PyError (Doc × Doc) :=
  match masks with
  | [] => .error .indexError
  | m0 :: _ =>
    match sentences with
    | [] => .error .indexError
    | s0 :: _ =>
      let mask_padding_array : List Int := List.replicate m0.length 0
      let sentence_padding_array : List Int := List.replicate s0.length c.padTokenId
      if sentences.length < docLen then
        .ok (sentences ++ List.replicate (docLen - sentences.length) sentence_padding_array,
             masks ++ List.replicate (docLen - masks.length) mask_padding_array)
      else if sentences.length > docLen then
        .ok (sentences.take docLen, masks.take docLen)
      else
        .ok (sentences, masks)

/-- The heap-free composition of sentence- and document-level padding for one
feature; `processFeature` below realises exactly this value through the heap. -/
def CustomDataCollator.purePad (c : CustomDataCollator) (senLen docLen : Nat)
    (tokens masks : Doc) : Except PyError (Doc × Doc) :=
  let p := c.pad_sentence senLen tokens masks
  c.pad_document docLen p.1 p.2

/-- Embeds the body of the per-feature loop of `__call__` (lines 38–43): read
the document and mask from the feature record, build the fresh padded lists
(`pad_sentence` allocates new list objects), mutate them in place
(`pad_document`), and hand back what the freshly mutated cells now hold. -/
def CustomDataCollator.processFeature (c : CustomDataCollator) (senLen docLen : Nat)
    (h : Heap) (tokRef maskRef : Nat) : Except PyError ((Doc × Doc) × Heap) :=
  let p := c.pad_sentence senLen (h.mem tokRef) (h.mem maskRef)
  let a1 := h.alloc p.1
  let a2 := a1.2.alloc p.2
  match c.pad_document docLen (a2.2.mem a1.1) (a2.2.mem a2.1) with
  | .error e => .error e
  | .ok q =>
    let h3 := (a2.2.write a1.1 q.1).write a2.1 q.2
    .ok ((h3.mem a1.1, h3.mem a2.1), h3)

/-- Runs `processFeature` over all features of the batch in order, threading
the heap, and collects the per-feature (sentences, masks) pairs that
`__call__` appends to `batch_sentences` / `batch_masks`. -/
def CustomDataCollator.processAll (c : CustomDataCollator) (senLen docLen : Nat) :
    List (Nat × Nat) → Heap → Except PyError (List (Doc × Doc) × Heap)
  | [], h => .ok ([], h)
  | pr :: rest, h =>
    match c.processFeature senLen docLen h pr.1 pr.2 with
    | .error e => .error e
    | .ok ph =>
      match c.processAll senLen docLen rest ph.2 with
      | .error e => .error e
      | .ok psh => .ok (ph.1 :: psh.1, psh.2)

/-- Looks up the same key in every feature record of the batch, in order,
stopping at the first failing lookup — the evaluation order of the
comprehensions in lines 26–27 and 35. -/
def mapLookup : List Feature → String → Except PyError (List Nat)
  | [], _ => .ok []
  | f :: fs, key =>
    match lookupDocRef f key with
    | .error e => .error e
    | .ok r =>
      match mapLookup fs key with
      | .error e => .error e
      | .ok rs => .ok (r :: rs)

/-- A stacked 3-dimensional tensor is embedded as its nested list of values;
`torch.tensor` only accepts it when it is rectangular. -/
abbrev Tensor3 := List Doc

/-- Rectangularity check performed by `torch.tensor(batch_sentences)`: all
documents of the batch must hold the same number of sentences and all
sentences the same number of tokens. -/
def rect3 (t : Tensor3) : Bool :=
  (match t.head? with
   | none => true
   | some d0 => t.all (fun d => d.length == d0.length))
  &&
  (match t.flatten.head? with
   | none => true
   | some s0 => t.flatten.all (fun s => s.length == s0.length))

/-- Embeds `torch.tensor(..., dtype=torch.int64)` on a nested Python list:
jagged input raises a `ValueError`. -/
def toTensor (t : List Doc) : Except PyError Tensor3 :=
  if rect3 t then .ok t else .error .valueErrorJagged

/-- The flattened sentence-length list of lines 26–27:
`[len(sentence) for instance in features for sentence in instance[key]]`. -/
def flatSenLens (h : Heap) (refs : List Nat) : List Nat :=
  (refs.map (fun r => (h.mem r).map List.length)).flatten

/-- Embeds one iteration of the slot loop of `__call__` (lines 22–47) for the
slot with keys `artKey` / `maskKey`: compute both flattened sentence-length
lists, assert their equality, derive `sen_len` and `doc_len` from the batch
statistics, pad every feature, and stack the padded lists into two tensors. -/
def CustomDataCollator.callSlot (c : CustomDataCollator) (features : List Feature)
    (artKey maskKey : String) (h : Heap) :
    Except PyError ((Tensor3 × Tensor3) × Heap) :=
  match mapLookup features artKey with
  | .error e => .error e
  | .ok artRefs =>
    match mapLookup features maskKey with
    | .error e => .error e
    | .ok maskRefs =>
      let sen_len_article := flatSenLens h artRefs
      let sen_len_mask := flatSenLens h maskRefs
      if sen_len_article = sen_len_mask then
        match pyMax sen_len_article with
        | .error e => .error e
        | .ok mx =>
          let sen_len := min c.max_sentence_len mx
          let doc_len_article := maskRefs.map (fun r => (h.mem r).length)
          match pyMax doc_len_article with
          | .error e => .error e
          | .ok mxd =>
            let doc_len := min c.max_document_len mxd
            match c.processAll sen_len doc_len (artRefs.zip maskRefs) h with
            | .error e => .error e
            | .ok psh =>
              match toTensor (psh.1.map Prod.fst) with
              | .error e => .error e
              | .ok ts =>
                match toTensor (psh.1.map Prod.snd) with
                | .error e => .error e
                | .ok tm => .ok ((ts, tm), psh.2)
      else
        .error (.assertionError
          ("There is a mismatch for " ++ artKey ++ " and " ++ maskKey ++ "."))

/-- The output batch: a Python dict from key to stacked tensor, in insertion
order. -/
abbrev Batch := List (String × Tensor3)

/-- Embeds `CustomDataCollator.__call__` (lines 18–48).  The slot loop
`for article_number in range(1, 3)` is hard-coded to the two slots
`article_1` / `article_2`; each slot is processed completely (including the
`torch.tensor` stacking) before the next one starts, and the resulting dict
holds exactly the four keys below. -/
def CustomDataCollator.call (c : CustomDataCollator) (features : List Feature)
    (h : Heap) : Except PyError (Batch × Heap) :=
  match c.callSlot features "article_1" "mask_1" h with
  | .error e => .error e
  | .ok s1 =>
    match c.callSlot features "article_2" "mask_2" s1.2 with
    | .error e => .error e
    | .ok s2 =>
      .ok ([("article_1", s1.1.1), ("mask_1", s1.1.2),
            ("article_2", s2.1.1), ("mask_2", s2.1.2)], s2.2)

/-! ### Pure characterisation of the collator

The collator only ever writes to list cells it allocated itself, so its
result is a pure function of the contents of the feature records.  The
lemmas of this section make that precise; they drive both the functional
claims and the purity/idempotence claim.
-/

/-- `purePad` applied to every feature of the batch in order. -/
def CustomDataCollator.purePadAll (c : CustomDataCollator) (senLen docLen : Nat) :
    List (Doc × Doc) → Except PyError (List (Doc × Doc))
  | [] => .ok []
  | d :: ds =>
    match c.purePad senLen docLen d.1 d.2 with
    | .error e => .error e
    | .ok p =>
      match c.purePadAll senLen docLen ds with
      | .error e => .error e
      | .ok ps => .ok (p :: ps)

/-- Whether a feature value's reference (if any) points below `n`. -/
def FeatVal.refBound : FeatVal → Nat → Bool
  | .docRef r, n => r < n
  | .intVal _, _ => true

/-- Every `docRef` a feature record holds points below the heap frontier. -/
def FeatureValid (h : Heap) (f : Feature) : Prop :=
  ∀ kv ∈ f, kv.2.refBound h.next = true

instance (h : Heap) (f : Feature) : Decidable (FeatureValid h f) := by
  unfold FeatureValid
  infer_instance

/-- The heap-free value of one slot iteration of `__call__`, as a function of
the document and mask contents of the batch (one `Doc` per feature and slot).
The keys only enter the assertion message. -/
def CustomDataCollator.pureCallSlot (c : CustomDataCollator) (artKey maskKey : String)
    (arts masks : List Doc) : Except PyError (Tensor3 × Tensor3) :=
  let sen_len_article := (arts.map (fun d => d.map List.length)).flatten
  let sen_len_mask := (masks.map (fun d => d.map List.length)).flatten
  if sen_len_article = sen_len_mask then
    match pyMax sen_len_article with
    | .error e => .error e
    | .ok mx =>
      let sen_len := min c.max_sentence_len mx
      match pyMax (masks.map List.length) with
      | .error e => .error e
      | .ok mxd =>
        let doc_len := min c.max_document_len mxd
        match c.purePadAll sen_len doc_len (arts.zip masks) with
        | .error e => .error e
        | .ok pairs =>
          match toTensor (pairs.map Prod.fst) with
          | .error e => .error e
          | .ok ts =>
            match toTensor (pairs.map Prod.snd) with
            | .error e => .error e
            | .ok tm => .ok (ts, tm)
  else
    .error (.assertionError
      ("There is a mismatch for " ++ artKey ++ " and " ++ maskKey ++ "."))

/-! ### Vocabulary for the claims -/

/-- A heap whose first cells hold the given documents. -/
def heapOf (ds : List Doc) : Heap := ⟨ds.length, fun r => ds.getD r []⟩

/-- The maximum of a list of naturals (`0` on the empty list); on a non-empty
list this is the value Python `max` returns. -/
def listMax (l : List Nat) : Nat := l.foldr max 0

/-- The heap that a collator invocation leaves behind (the input heap when
the invocation failed). -/
def resultHeap (x : Except PyError (Batch × Heap)) (dflt : Heap) : Heap :=
  match x with
  | .ok p => p.2
  | .error _ => dflt

/-- The stacked tensor `t` has shape `(b, d, s)`. -/
def tensorShape (t : Tensor3) (b d s : Nat) : Prop :=
  t.length = b ∧ (∀ doc ∈ t, doc.length = d) ∧ ∀ doc ∈ t, ∀ sen ∈ doc, sen.length = s

/-- The padding invariant claimed for one collated document, relative to its
original token rows `origT` and mask rows `origM`: corresponding output rows
have equal length, a position is padding on the token side exactly when it is
padding on the mask side, padding positions hold the pad id (tokens) and `0`
(masks), and non-padding positions hold the original values.  A position
`(i, j)` counts as token-side padding when it lies beyond the original token
extents, and symmetrically for the mask side. -/
def docPadInvariant (padId : Int) (origT origM outT outM : Doc) : Prop :=
  outT.length = outM.length ∧
  ∀ i, i < outT.length →
    ((outT.getD i []).length = (outM.getD i []).length ∧
     ∀ j, j < (outT.getD i []).length →
       ((origT.length ≤ i ∨ (origT.getD i []).length ≤ j) ↔
        (origM.length ≤ i ∨ (origM.getD i []).length ≤ j)) ∧
       ((origT.length ≤ i ∨ (origT.getD i []).length ≤ j) →
         (outT.getD i []).getD j 0 = padId ∧ (outM.getD i []).getD j 0 = 0) ∧
       (¬ (origT.length ≤ i ∨ (origT.getD i []).length ≤ j) →
         (outT.getD i []).getD j 0 = (origT.getD i []).getD j 0 ∧
         (outM.getD i []).getD j 0 = (origM.getD i []).getD j 0))

/-- `docPadInvariant` for every document of a collated slot. -/
def slotPadInvariant (padId : Int) (arts masks : List Doc) (ts tm : Tensor3) : Prop :=
  ts.length = arts.length ∧ tm.length = arts.length ∧
  ∀ b, b < arts.length →
    docPadInvariant padId (arts.getD b []) (masks.getD b []) (ts.getD b []) (tm.getD b [])

/-! ### Concrete batches used to settle individual claims -/

/-- Collator with default ceilings and pad id `0`. -/
def exC4_c : CustomDataCollator := { padTokenId := 0 }

def exC4_heap : Heap := heapOf [[[1, 2]], [[1, 1]]]

/-- A single-document classification batch: only the `article_1` slot (plus
its mask and a label) is present, as produced for `article_numbers = 1`. -/
def exC4_features : List Feature :=
  [[("article_1", FeatVal.docRef 0), ("mask_1", FeatVal.docRef 1),
    ("labels", FeatVal.intVal 3)]]

def exC3_c : CustomDataCollator := { padTokenId := 0 }

def exC3_heap : Heap := heapOf [[[1, 2]], [[1, 1]], [[3]], [[1]]]

/-- A batch of one example carrying both document slots and a label. -/
def exC3_features : List Feature :=
  [[("article_1", FeatVal.docRef 0), ("mask_1", FeatVal.docRef 1),
    ("article_2", FeatVal.docRef 2), ("mask_2", FeatVal.docRef 3),
    ("labels", FeatVal.intVal 1)]]

def exC3_batch : Batch :=
  [("article_1", [[[1, 2]]]), ("mask_1", [[[1, 1]]]),
   ("article_2", [[[3]]]), ("mask_2", [[[1]]])]

def exC2_c : CustomDataCollator := { padTokenId := 0, max_sentence_len := 2 }

def exC1_c : CustomDataCollator := { padTokenId := 0, max_sentence_len := 2 }

def exC1_heap : Heap := heapOf [[[1, 2, 3]], [[1, 1, 1]], [[5]], [[1]]]

/-- A batch with a 3-token sentence while `max_sentence_len = 2`. -/
def exC1_features : List Feature :=
  [[("article_1", FeatVal.docRef 0), ("mask_1", FeatVal.docRef 1),
    ("article_2", FeatVal.docRef 2), ("mask_2", FeatVal.docRef 3)]]

def exC1_batch : Batch :=
  [("article_1", [[[1, 2, 3]]]), ("mask_1", [[[1, 1, 1]]]),
   ("article_2", [[[5]]]), ("mask_2", [[[1]]])]

def exC6_c : CustomDataCollator := { padTokenId := 0 }

/-- Per-example mismatched token/mask sentence counts whose batch-flattened
sentence-length lists nevertheless coincide. -/
def exC6_heap : Heap := heapOf
  [[[1], [2]], [[1]],
   [[3]], [[1], [1]],
   [[4], [5], [6]], [[1], [1], [1]],
   [[7]], [[1]]]

def exC6_features : List Feature :=
  [[("article_1", FeatVal.docRef 0), ("mask_1", FeatVal.docRef 1),
    ("article_2", FeatVal.docRef 6), ("mask_2", FeatVal.docRef 7)],
   [("article_1", FeatVal.docRef 2), ("mask_1", FeatVal.docRef 3),
    ("article_2", FeatVal.docRef 6), ("mask_2", FeatVal.docRef 7)],
   [("article_1", FeatVal.docRef 4), ("mask_1", FeatVal.docRef 5),
    ("article_2", FeatVal.docRef 6), ("mask_2", FeatVal.docRef 7)]]

def exC6_batch : Batch :=
  [("article_1", [[[1], [2], [0]], [[3], [0], [0]], [[4], [5], [6]]]),
   ("mask_1", [[[1], [0], [0]], [[1], [1], [0]], [[1], [1], [1]]]),
   ("article_2", [[[7]], [[7]], [[7]]]),
   ("mask_2", [[[1]], [[1]], [[1]]])]

def exC5_c : CustomDataCollator := { padTokenId := 9 }

def exC5_heap : Heap := heapOf
  [[[11], [12]], [[1]],
   [[13]], [[1], [1]],
   [[14], [15], [16]], [[1], [1], [1]],
   [[17]], [[1]]]

def exC5_features : List Feature :=
  [[("article_1", FeatVal.docRef 0), ("mask_1", FeatVal.docRef 1),
    ("article_2", FeatVal.docRef 6), ("mask_2", FeatVal.docRef 7)],
   [("article_1", FeatVal.docRef 2), ("mask_1", FeatVal.docRef 3),
    ("article_2", FeatVal.docRef 6), ("mask_2", FeatVal.docRef 7)],
   [("article_1", FeatVal.docRef 4), ("mask_1", FeatVal.docRef 5),
    ("article_2", FeatVal.docRef 6), ("mask_2", FeatVal.docRef 7)]]

def exC5_batch : Batch :=
  [("article_1", [[[11], [12], [9]], [[13], [9], [9]], [[14], [15], [16]]]),
   ("mask_1", [[[1], [0], [0]], [[1], [1], [0]], [[1], [1], [1]]]),
   ("article_2", [[[17]], [[17]], [[17]]]),
   ("mask_2", [[[1]], [[1]], [[1]]])]

def exC6w_c : CustomDataCollator := { padTokenId := 0 }

def exC6w_heap : Heap := heapOf [[[1, 2]], [[1]], [[3]], [[1]]]

/-- A batch whose `article_1` sentence lengths `[2]` differ from its
`mask_1` lengths `[1]`. -/
def exC6w_features : List Feature :=
  [[("article_1", FeatVal.docRef 0), ("mask_1", FeatVal.docRef 1),
    ("article_2", FeatVal.docRef 2), ("mask_2", FeatVal.docRef 3)]]

def exC9_c : CustomDataCollator :=
  { padTokenId := 0, max_sentence_len := 4, max_document_len := 2 }

def exC9_heap : Heap := heapOf [[[1, 2], [3, 4, 5]], [[1, 1], [1, 1, 1]], [[6]], [[1]]]

def exC9_features : List Feature :=
  [[("article_1", FeatVal.docRef 0), ("mask_1", FeatVal.docRef 1),
    ("article_2", FeatVal.docRef 2), ("mask_2", FeatVal.docRef 3)]]

def exC9_batch : Batch :=
  [("article_1", [[[1, 2, 0], [3, 4, 5]]]), ("mask_1", [[[1, 1, 0], [1, 1, 1]]]),
   ("article_2", [[[6]]]), ("mask_2", [[[1]]])]

def exC1w_c : CustomDataCollator :=
  { padTokenId := 0, max_sentence_len := 4, max_document_len := 2 }

def exC1w_heap : Heap :=
  heapOf [[[21, 22], [23, 24, 25]], [[1, 1], [1, 1, 1]], [[26]], [[1]]]

def exC1w_features : List Feature :=
  [[("article_1", FeatVal.docRef 0), ("mask_1", FeatVal.docRef 1),
    ("article_2", FeatVal.docRef 2), ("mask_2", FeatVal.docRef 3)]]

def exC1w_batch : Batch :=
  [("article_1", [[[21, 22, 0], [23, 24, 25]]]), ("mask_1", [[[1, 1, 0], [1, 1, 1]]]),
   ("article_2", [[[26]]]), ("mask_2", [[[1]]])]

def exC5w_c : CustomDataCollator := { padTokenId := 0 }

def exC5w_heap : Heap := heapOf [[[31, 32], [33]], [[1, 1], [1]], [[34]], [[1]]]

def exC5w_features : List Feature :=
  [[("article_1", FeatVal.docRef 0), ("mask_1", FeatVal.docRef 1),
    ("article_2", FeatVal.docRef 2), ("mask_2", FeatVal.docRef 3)]]

def exC5w_batch : Batch :=
  [("article_1", [[[31, 32], [33, 0]]]), ("mask_1", [[[1, 1], [1, 0]]]),
   ("article_2", [[[34]]]), ("mask_2", [[[1]]])]

/-! ### models.py — freezing, contrastive head, classification head -/

/-- The `requires_grad` flags of a lower encoder's parameters
(`LowerXLMREncoder` / `LowerBertEncoder` in `models.py`): `base_model` is the
pretrained transformer body (`self.roberta` / `self.bert` — the code's own
comment notes `lower_model.base_model` is a reference to it), and `pooler`
the added pooling projection (`Pooler`: dense weight and bias, plus the
parameterless `Tanh`).  The pooler is a sibling of `base_model`, not part of
it. -/
structure LowerEncoderParams where
  base_model : List Bool
  pooler : List Bool
deriving DecidableEq, Repr

/-- The parameters of `HiearchicalModel`: the lower encoder and the upper
`nn.TransformerEncoder` (`transformer_encoder`); the dropout modules own no
parameters. -/
structure HiearchicalModelParams where
  lower_model : LowerEncoderParams
  transformer_encoder : List Bool
deriving DecidableEq, Repr

/-- Embeds `HiearchicalModel._freeze_lower` (lines 163–165): it iterates
`self.lower_model.base_model.parameters()` — the transformer body only —
and sets `requires_grad = False` on each. -/
def freeze_lower (m : HiearchicalModelParams) : HiearchicalModelParams :=
  { m with lower_model :=
      { m.lower_model with base_model := m.lower_model.base_model.map (fun _ => false) } }

/-- Embeds the gradient-flag effect of `HiearchicalModel.__init__`
(lines 104–126): PyTorch creates every parameter with
`requires_grad = True`, and `_freeze_lower` runs iff `args.frozen`. -/
def mkHiearchicalModel (nBase nPooler nUpper : Nat) (frozen : Bool) :
    HiearchicalModelParams :=
  let m0 : HiearchicalModelParams :=
    { lower_model := { base_model := List.replicate nBase true,
                       pooler := List.replicate nPooler true },
      transformer_encoder := List.replicate nUpper true }
  if frozen then freeze_lower m0 else m0

/-- The dot product of two vectors (pairwise, over the common length). -/
noncomputable def dotList (x y : List ℝ) : ℝ := ((x.zip y).map (fun p => p.1 * p.2)).sum

/-- The Euclidean norm of a vector. -/
noncomputable def normList (x : List ℝ) : ℝ := Real.sqrt (dotList x x)

/-- Modelled from the spec: `utils.cos_sim` (imported by `models.py` but not
among the repository's staged files) — "`sim` is cosine similarity", the
pairwise cosine-similarity matrix of two batches of vectors, entry `(i, j)`
being the cosine of row `i` of `a` and row `j` of `b`. -/
noncomputable def cos_sim (a b : List (List ℝ)) : List (List ℝ) :=
  a.map (fun x => b.map (fun y => dotList x y / (normList x * normList y)))

/-- Elementwise product of a score matrix with the scalar `scale`
(`scores * self.scale`). -/
noncomputable def scaleMatrix (s : ℝ) (mat : List (List ℝ)) : List (List ℝ) :=
  mat.map (fun row => row.map (fun x => x * s))

/-- The softmax cross-entropy of one score row against a target index. -/
noncomputable def softmaxCE (row : List ℝ) (target : Nat) : ℝ :=
  -Real.log (Real.exp (row.getD target 0) / (row.map Real.exp).sum)

/-- `nn.CrossEntropyLoss` (mean reduction) against integer class targets. -/
noncomputable def crossEntropyLossNat (scores : List (List ℝ)) (targets : List Nat) : ℝ :=
  (((scores.zip targets).map (fun p => softmaxCE p.1 p.2)).sum) / scores.length

/-- Embeds `ContrastiveModel` (lines 177–208): the shared hierarchical
encoder (abstracted as the function it computes from a slot's token and mask
tensors to the batch of document vectors), the fixed similarity scale, and
the hard-negative toggle.  `args.similarity_fct` is checked at construction
to be `cos_sim`, the only supported choice, so the similarity function is
`cos_sim` itself. -/
structure ContrastiveModel (Inp : Type) where
  hierarchical_model : Inp → Inp → List (List ℝ)
  scale : ℝ
  use_hard_negatives : Bool

/-- Embeds `ContrastiveModel.forward` (lines 190–208).  The four optional
arguments default to `None` in Python; passing `none` where the hard-negative
branch needs a tensor is the caller error the code would hit when invoking
the encoder on `None`. -/
noncomputable def ContrastiveModel.forward {Inp : Type} (m : ContrastiveModel Inp)
    (article_1 mask_1 article_2 mask_2 : Inp)
    (article_3 mask_3 article_4 mask_4 : Option Inp) : Except PyError ℝ :=
  let output_1 := m.hierarchical_model article_1 mask_1
  let output_2 := m.hierarchical_model article_2 mask_2
  if m.use_hard_negatives then
    match article_3, mask_3, article_4, mask_4 with
    | some a3, some k3, some a4, some k4 =>
      let output_3 := m.hierarchical_model a3 k3
      let output_4 := m.hierarchical_model a4 k4
      let scores_1 := scaleMatrix m.scale (cos_sim output_1 (output_2 ++ output_3))
      let scores_2 := scaleMatrix m.scale (cos_sim output_2 (output_1 ++ output_4))
      let labels := List.range scores_1.length
      .ok (crossEntropyLossNat scores_1 labels + crossEntropyLossNat scores_2 labels)
    | _, _, _, _ => .error (.typeError "article_3")
  else
    let scores_1 := scaleMatrix m.scale (cos_sim output_1 output_2)
    let scores_2 := scaleMatrix m.scale (cos_sim output_2 output_1)
    let labels := List.range scores_1.length
    .ok (crossEntropyLossNat scores_1 labels + crossEntropyLossNat scores_2 labels)

/-- The matrix `mat` has `r` rows of `c` entries each. -/
def matShape (mat : List (List ℝ)) (r c : Nat) : Prop :=
  mat.length = r ∧ ∀ row ∈ mat, row.length = c

/-- A two-document contrastive model over trivial inputs used to witness the
structural theorem at a concrete instance. -/
noncomputable def exC7_model : ContrastiveModel Unit :=
  { hierarchical_model := fun _ _ => [[1, 0], [0, 1]],
    scale := 20,
    use_hard_negatives := false }

/-- The dtype tag of a label tensor. -/
inductive DType where
  | long
  | int
  | float
deriving DecidableEq, Repr

/-- A label tensor: integer class ids carried by a `torch.long` or
`torch.int` tensor, or float (possibly multi-label) targets. -/
inductive Labels where
  | longTensor (vals : List Int)
  | intTensor (vals : List Int)
  | floatTensor (vals : List (List ℝ))

/-- `labels.dtype`. -/
def Labels.dtype : Labels → DType
  | .longTensor _ => .long
  | .intTensor _ => .int
  | .floatTensor _ => .float

/-- One element of `nn.BCEWithLogitsLoss`:
`-(y·log σ(x) + (1-y)·log(1-σ(x)))` with `σ` the logistic sigmoid. -/
noncomputable def bceElement (x y : ℝ) : ℝ :=
  -(y * Real.log (1 / (1 + Real.exp (-x)))
    + (1 - y) * Real.log (1 - 1 / (1 + Real.exp (-x))))

/-- `nn.BCEWithLogitsLoss` (mean reduction) over a logits/targets matrix
pair. -/
noncomputable def bceWithLogitsLoss (logits targets : List (List ℝ)) : ℝ :=
  (((logits.zip targets).map (fun p => (p.1.zip p.2).map (fun q => bceElement q.1 q.2))).flatten).sum
    / (((logits.zip targets).map (fun p => (p.1.zip p.2).map (fun q => bceElement q.1 q.2))).flatten).length

/-- `nn.CrossEntropyLoss` against an integer class-id tensor (the code's
`labels.view(-1)`). -/
noncomputable def crossEntropyLossInt (logits : List (List ℝ)) (targets : List Int) : ℝ :=
  (((logits.zip targets).map (fun p => softmaxCE p.1 p.2.toNat)).sum) / logits.length

/-- Embeds `HierarchicalClassificationModel` (lines 211–246): the document
encoder (abstracted as the function it computes), the dropout and the linear
classification head `classifier`, and `num_labels`. -/
structure HierarchicalClassificationModel (Inp : Type) where
  hierarchical_model : Inp → Inp → List (List ℝ)
  dropout : List ℝ → List ℝ
  classifier : List ℝ → List ℝ
  num_labels : Nat

/-- Embeds `HierarchicalClassificationModel.forward` (lines 230–246): encode,
dropout, project to logits, then select the loss by
`num_labels > 1 and labels.dtype in (torch.long, torch.int)` — categorical
cross-entropy in that case, `BCEWithLogitsLoss` otherwise (which torch
rejects at runtime when handed an integer-typed target). -/
noncomputable def HierarchicalClassificationModel.forward {Inp : Type}
    (m : HierarchicalClassificationModel Inp) (article_1 mask_1 : Inp)
    (labels : Labels) : Except PyError (ℝ × List (List ℝ)) :=
  let output := m.hierarchical_model article_1 mask_1
  let output_d := output.map m.dropout
  let logits := output_d.map m.classifier
  if m.num_labels > 1 ∧ (labels.dtype = DType.long ∨ labels.dtype = DType.int) then
    match labels with
    | .longTensor v => .ok (crossEntropyLossInt logits v, logits)
    | .intTensor v => .ok (crossEntropyLossInt logits v, logits)
    | .floatTensor _ => .error (.runtimeError "expected scalar type Long but found Float")
  else
    match labels with
    | .floatTensor v => .ok (bceWithLogitsLoss logits v, logits)
    | .longTensor _ => .error (.runtimeError "Found dtype Long but expected Float")
    | .intTensor _ => .error (.runtimeError "Found dtype Int but expected Float")

@[simp] theorem Heap.alloc_fst (h : Heap) (d : Doc) : (h.alloc d).1 = h.next := rfl

@[simp] theorem Heap.alloc_next (h : Heap) (d : Doc) : (h.alloc d).2.next = h.next + 1 := rfl

@[simp] theorem Heap.alloc_mem (h : Heap) (d : Doc) (r : Nat) :
    (h.alloc d).2.mem r = if r = h.next then d else h.mem r := rfl

@[simp] theorem Heap.write_next (h : Heap) (r : Nat) (d : Doc) : (h.write r d).next = h.next := rfl

@[simp] theorem Heap.write_mem (h : Heap) (r : Nat) (d : Doc) (x : Nat) :
    (h.write r d).mem x = if x = r then d else h.mem x := rfl

theorem CustomDataCollator.processFeature_fst (c : CustomDataCollator)
    (senLen docLen : Nat) (h : Heap) (tr mr : Nat) :
    (c.processFeature senLen docLen h tr mr).map Prod.fst
      = c.purePad senLen docLen (h.mem tr) (h.mem mr) := by
  unfold CustomDataCollator.processFeature CustomDataCollator.purePad
  simp only [Heap.alloc_fst, Heap.alloc_next, Heap.alloc_mem, Heap.write_mem, Heap.write_next,
    if_pos rfl]
  have hne : h.next ≠ h.next + 1 := by omega
  simp only [if_neg hne, if_pos rfl]
  cases hpd : c.pad_document docLen
      (c.pad_sentence senLen (h.mem tr) (h.mem mr)).1
      (c.pad_sentence senLen (h.mem tr) (h.mem mr)).2 with
  | error e => simp [hpd, Except.map]
  | ok q => simp [hpd, if_neg hne, Except.map]

theorem CustomDataCollator.processFeature_frame (c : CustomDataCollator)
    (senLen docLen : Nat) (h : Heap) (tr mr : Nat) (pr : Doc × Doc) (h2 : Heap)
    (heq : c.processFeature senLen docLen h tr mr = .ok (pr, h2)) :
    h2.next = h.next + 2 ∧ ∀ r, r < h.next → h2.mem r = h.mem r := by
  unfold CustomDataCollator.processFeature at heq
  simp only [Heap.alloc_fst, Heap.alloc_next, Heap.alloc_mem, Heap.write_next,
    Heap.write_mem] at heq
  split at heq
  · exact absurd heq (by simp)
  · simp only [Except.ok.injEq, Prod.mk.injEq] at heq
    obtain ⟨-, heq2⟩ := heq
    subst heq2
    constructor
    · simp [Heap.write_next, Heap.alloc_next]
    · intro r hr
      have h1 : r ≠ h.next + 1 := by omega
      have h0 : r ≠ h.next := by omega
      simp [Heap.write_mem, Heap.alloc_mem, Heap.alloc_next, h0, h1]

theorem CustomDataCollator.processAll_frame (c : CustomDataCollator)
    (senLen docLen : Nat) (prs : List (Nat × Nat)) (h : Heap)
    (ps : List (Doc × Doc)) (h2 : Heap)
    (heq : c.processAll senLen docLen prs h = .ok (ps, h2)) :
    h.next ≤ h2.next ∧ ∀ r, r < h.next → h2.mem r = h.mem r := by
  induction prs generalizing h ps with
  | nil =>
    unfold CustomDataCollator.processAll at heq
    simp only [Except.ok.injEq, Prod.mk.injEq] at heq
    obtain ⟨-, h2eq⟩ := heq
    subst h2eq
    exact ⟨le_refl _, fun r _ => rfl⟩
  | cons pr rest ih =>
    unfold CustomDataCollator.processAll at heq
    cases hpf : c.processFeature senLen docLen h pr.1 pr.2 with
    | error e => simp only [hpf] at heq; exact absurd heq (by simp)
    | ok ph =>
      simp only [hpf] at heq
      cases hpa : c.processAll senLen docLen rest ph.2 with
      | error e => simp only [hpa] at heq; exact absurd heq (by simp)
      | ok psh =>
        simp only [hpa] at heq
        simp only [Except.ok.injEq, Prod.mk.injEq] at heq
        obtain ⟨-, h2eq⟩ := heq
        subst h2eq
        obtain ⟨hn1, hm1⟩ := c.processFeature_frame senLen docLen h pr.1 pr.2 ph.1 ph.2
          (by rw [hpf])
        obtain ⟨hn2, hm2⟩ := ih ph.2 psh.1 (by rw [hpa])
        refine ⟨by omega, fun r hr => ?_⟩
        rw [hm2 r (by omega), hm1 r hr]

theorem CustomDataCollator.processAll_fst (c : CustomDataCollator)
    (senLen docLen : Nat) (prs : List (Nat × Nat)) (h : Heap)
    (hval : ∀ pr ∈ prs, pr.1 < h.next ∧ pr.2 < h.next) :
    (c.processAll senLen docLen prs h).map Prod.fst
      = c.purePadAll senLen docLen (prs.map (fun pr => (h.mem pr.1, h.mem pr.2))) := by
  induction prs generalizing h with
  | nil => rfl
  | cons pr rest ih =>
    unfold CustomDataCollator.processAll CustomDataCollator.purePadAll
    have hfst := c.processFeature_fst senLen docLen h pr.1 pr.2
    cases hpf : c.processFeature senLen docLen h pr.1 pr.2 with
    | error e =>
      rw [hpf] at hfst
      simp only [List.map_cons, Except.map] at hfst ⊢
      rw [← hfst]
    | ok ph =>
      rw [hpf] at hfst
      simp only [Except.map] at hfst
      obtain ⟨hn1, hm1⟩ := c.processFeature_frame senLen docLen h pr.1 pr.2 ph.1 ph.2
        (by rw [hpf])
      have hrest : rest.map (fun pr => (ph.2.mem pr.1, ph.2.mem pr.2))
          = rest.map (fun pr => (h.mem pr.1, h.mem pr.2)) := by
        apply List.map_congr_left
        intro x hx
        obtain ⟨hx1, hx2⟩ := hval x (List.mem_cons_of_mem _ hx)
        rw [hm1 x.1 hx1, hm1 x.2 hx2]
      have ihr := ih ph.2 (fun x hx => by
        obtain ⟨hx1, hx2⟩ := hval x (List.mem_cons_of_mem _ hx)
        exact ⟨by omega, by omega⟩)
      rw [hrest] at ihr
      simp only [List.map_cons, ← hfst]
      cases hpa : c.processAll senLen docLen rest ph.2 with
      | error e =>
        rw [hpa] at ihr
        simp only [Except.map] at ihr ⊢
        rw [← ihr]
      | ok psh =>
        rw [hpa] at ihr
        simp only [Except.map] at ihr ⊢
        rw [← ihr]

theorem lookupDocRef_lt (h : Heap) (f : Feature) (key : String) (r : Nat)
    (heq : lookupDocRef f key = .ok r) (hval : FeatureValid h f) : r < h.next := by
  unfold lookupDocRef at heq
  cases hfind : f.find? (fun kv => kv.1 = key) with
  | none => simp only [hfind] at heq; exact absurd heq (by simp)
  | some kv =>
    simp only [hfind] at heq
    cases hkv : kv.2 with
    | docRef r0 =>
      simp only [hkv] at heq
      simp only [Except.ok.injEq] at heq
      subst heq
      have hb := hval kv (List.mem_of_find?_eq_some hfind)
      rw [hkv] at hb
      simpa [FeatVal.refBound] using hb
    | intVal v => simp only [hkv] at heq; exact absurd heq (by simp)

theorem mapLookup_valid (h : Heap) (fs : List Feature) (key : String) (rs : List Nat)
    (heq : mapLookup fs key = .ok rs) (hval : ∀ f ∈ fs, FeatureValid h f) :
    ∀ r ∈ rs, r < h.next := by
  induction fs generalizing rs with
  | nil =>
    unfold mapLookup at heq
    simp only [Except.ok.injEq] at heq
    subst heq
    simp
  | cons f fs ih =>
    unfold mapLookup at heq
    cases hl : lookupDocRef f key with
    | error e => rw [hl] at heq; exact absurd heq (by simp)
    | ok r0 =>
      rw [hl] at heq
      cases hm : mapLookup fs key with
      | error e => rw [hm] at heq; exact absurd heq (by simp)
      | ok rs0 =>
        rw [hm] at heq
        simp only [Except.ok.injEq] at heq
        subst heq
        intro r hr
        rcases List.mem_cons.mp hr with hr0 | hr1
        · subst hr0
          exact lookupDocRef_lt h f key r hl (hval f (List.mem_cons_self f fs))
        · exact ih rs0 hm (fun g hg => hval g (List.mem_cons_of_mem _ hg)) r hr1

theorem CustomDataCollator.callSlot_fst (c : CustomDataCollator) (features : List Feature)
    (artKey maskKey : String) (h : Heap)
    (hval : ∀ f ∈ features, FeatureValid h f) :
    (c.callSlot features artKey maskKey h).map Prod.fst
      = match mapLookup features artKey with
        | .error e => .error e
        | .ok ar =>
          match mapLookup features maskKey with
          | .error e => .error e
          | .ok mr => c.pureCallSlot artKey maskKey (ar.map h.mem) (mr.map h.mem) := by
  unfold CustomDataCollator.callSlot
  cases hma : mapLookup features artKey with
  | error e => simp [Except.map]
  | ok ar =>
    cases hmm : mapLookup features maskKey with
    | error e => simp [Except.map]
    | ok mr =>
      unfold CustomDataCollator.pureCallSlot
      have e1 : (ar.map h.mem).map (fun d => d.map List.length)
          = ar.map (fun r => (h.mem r).map List.length) := by
        rw [List.map_map]; rfl
      have e2 : (mr.map h.mem).map (fun d => d.map List.length)
          = mr.map (fun r => (h.mem r).map List.length) := by
        rw [List.map_map]; rfl
      have e3 : (mr.map h.mem).map List.length = mr.map (fun r => (h.mem r).length) := by
        rw [List.map_map]; rfl
      have e4 : (ar.map h.mem).zip (mr.map h.mem)
          = (ar.zip mr).map (fun pr => (h.mem pr.1, h.mem pr.2)) := by
        rw [List.zip_map]
        exact List.map_congr_left (fun x _ => rfl)
      simp only [flatSenLens, e1, e2, e3, e4]
      split
      · cases hmx : pyMax ((ar.map fun r => (h.mem r).map List.length).flatten) with
        | error e => simp [hmx, Except.map]
        | ok mx =>
          simp only [hmx]
          cases hmxd : pyMax (mr.map fun r => (h.mem r).length) with
          | error e => simp [hmxd, Except.map]
          | ok mxd =>
            simp only [hmxd]
            have hpa := c.processAll_fst (min c.max_sentence_len mx)
              (min c.max_document_len mxd) (ar.zip mr) h
              (fun pr hpr => by
                obtain ⟨h1, h2⟩ := List.of_mem_zip hpr
                exact ⟨mapLookup_valid h features artKey ar hma hval pr.1 h1,
                       mapLookup_valid h features maskKey mr hmm hval pr.2 h2⟩)
            cases hpr : c.processAll (min c.max_sentence_len mx)
                (min c.max_document_len mxd) (ar.zip mr) h with
            | error e =>
              rw [hpr] at hpa
              simp only [Except.map] at hpa
              simp [hpr, ← hpa, Except.map]
            | ok psh =>
              rw [hpr] at hpa
              simp only [Except.map] at hpa
              simp only [hpr, ← hpa]
              cases ht1 : toTensor (psh.1.map Prod.fst) with
              | error e => simp [ht1, Except.map]
              | ok ts =>
                simp only [ht1]
                cases ht2 : toTensor (psh.1.map Prod.snd) with
                | error e => simp [ht2, Except.map]
                | ok tm => simp [ht2, Except.map]
      · simp [Except.map]

theorem CustomDataCollator.callSlot_frame (c : CustomDataCollator) (features : List Feature)
    (artKey maskKey : String) (h : Heap) (t : Tensor3 × Tensor3) (h2 : Heap)
    (heq : c.callSlot features artKey maskKey h = .ok (t, h2)) :
    h.next ≤ h2.next ∧ ∀ r, r < h.next → h2.mem r = h.mem r := by
  unfold CustomDataCollator.callSlot at heq
  cases hma : mapLookup features artKey with
  | error e => simp only [hma] at heq; exact absurd heq (by simp)
  | ok ar =>
    simp only [hma] at heq
    cases hmm : mapLookup features maskKey with
    | error e => simp only [hmm] at heq; exact absurd heq (by simp)
    | ok mr =>
      simp only [hmm] at heq
      split at heq
      · cases hmx : pyMax (flatSenLens h ar) with
        | error e => simp only [hmx] at heq; exact absurd heq (by simp)
        | ok mx =>
          simp only [hmx] at heq
          cases hmxd : pyMax (mr.map fun r => (h.mem r).length) with
          | error e => simp only [hmxd] at heq; exact absurd heq (by simp)
          | ok mxd =>
            simp only [hmxd] at heq
            cases hpr : c.processAll (min c.max_sentence_len mx)
                (min c.max_document_len mxd) (ar.zip mr) h with
            | error e => simp only [hpr] at heq; exact absurd heq (by simp)
            | ok psh =>
              simp only [hpr] at heq
              have hfr := c.processAll_frame _ _ _ _ _ _ hpr
              cases ht1 : toTensor (psh.1.map Prod.fst) with
              | error e => simp only [ht1] at heq; exact absurd heq (by simp)
              | ok ts =>
                simp only [ht1] at heq
                cases ht2 : toTensor (psh.1.map Prod.snd) with
                | error e => simp only [ht2] at heq; exact absurd heq (by simp)
                | ok tm =>
                  simp only [ht2, Except.ok.injEq, Prod.mk.injEq] at heq
                  obtain ⟨-, h2eq⟩ := heq
                  subst h2eq
                  exact hfr
      · exact absurd heq (by simp)

theorem CustomDataCollator.callSlot_fst_congr (c : CustomDataCollator)
    (features : List Feature) (artKey maskKey : String) (h g : Heap)
    (hval : ∀ f ∈ features, FeatureValid h f)
    (hvalg : ∀ f ∈ features, FeatureValid g f)
    (hagree : ∀ r, r < h.next → g.mem r = h.mem r) :
    (c.callSlot features artKey maskKey g).map Prod.fst
      = (c.callSlot features artKey maskKey h).map Prod.fst := by
  rw [c.callSlot_fst features artKey maskKey g hvalg,
      c.callSlot_fst features artKey maskKey h hval]
  cases hma : mapLookup features artKey with
  | error e => rfl
  | ok ar =>
    cases hmm : mapLookup features maskKey with
    | error e => rfl
    | ok mr =>
      have ha : ar.map g.mem = ar.map h.mem :=
        List.map_congr_left (fun r hr =>
          hagree r (mapLookup_valid h features artKey ar hma hval r hr))
      have hb : mr.map g.mem = mr.map h.mem :=
        List.map_congr_left (fun r hr =>
          hagree r (mapLookup_valid h features maskKey mr hmm hval r hr))
      show c.pureCallSlot artKey maskKey (ar.map g.mem) (mr.map g.mem)
         = c.pureCallSlot artKey maskKey (ar.map h.mem) (mr.map h.mem)
      rw [ha, hb]

theorem CustomDataCollator.call_frame (c : CustomDataCollator) (features : List Feature)
    (h : Heap) (b : Batch) (h2 : Heap) (heq : c.call features h = .ok (b, h2)) :
    h.next ≤ h2.next ∧ ∀ r, r < h.next → h2.mem r = h.mem r := by
  unfold CustomDataCollator.call at heq
  cases hs1 : c.callSlot features "article_1" "mask_1" h with
  | error e => simp only [hs1] at heq; exact absurd heq (by simp)
  | ok s1h =>
    simp only [hs1] at heq
    cases hs2 : c.callSlot features "article_2" "mask_2" s1h.2 with
    | error e => simp only [hs2] at heq; exact absurd heq (by simp)
    | ok s2h =>
      simp only [hs2, Except.ok.injEq, Prod.mk.injEq] at heq
      obtain ⟨-, h2eq⟩ := heq
      subst h2eq
      obtain ⟨hle1, hm1⟩ := c.callSlot_frame features _ _ h s1h.1 s1h.2 (by rw [hs1])
      obtain ⟨hle2, hm2⟩ := c.callSlot_frame features _ _ s1h.2 s2h.1 s2h.2 (by rw [hs2])
      refine ⟨le_trans hle1 hle2, fun r hr => ?_⟩
      rw [hm2 r (lt_of_lt_of_le hr hle1), hm1 r hr]

theorem CustomDataCollator.call_fst (c : CustomDataCollator) (features : List Feature)
    (h : Heap) (hval : ∀ f ∈ features, FeatureValid h f) :
    (c.call features h).map Prod.fst
      = match (c.callSlot features "article_1" "mask_1" h).map Prod.fst with
        | .error e => .error e
        | .ok s1 =>
          match (c.callSlot features "article_2" "mask_2" h).map Prod.fst with
          | .error e => .error e
          | .ok s2 => .ok [("article_1", s1.1), ("mask_1", s1.2),
                           ("article_2", s2.1), ("mask_2", s2.2)]
      := by
  unfold CustomDataCollator.call
  cases hs1 : c.callSlot features "article_1" "mask_1" h with
  | error e => simp [Except.map]
  | ok s1h =>
    simp only [Except.map]
    obtain ⟨hle1, hm1⟩ := c.callSlot_frame features _ _ h s1h.1 s1h.2 (by rw [hs1])
    have hval2 : ∀ f ∈ features, FeatureValid s1h.2 f := by
      intro f hf kv hkv
      have hb := hval f hf kv hkv
      cases hv2 : kv.2 with
      | docRef r =>
        rw [hv2] at hb
        simp only [FeatVal.refBound, decide_eq_true_eq] at hb ⊢
        omega
      | intVal v => simp [FeatVal.refBound]
    have hcong := c.callSlot_fst_congr features "article_2" "mask_2" h s1h.2 hval hval2 hm1
    cases hs2 : c.callSlot features "article_2" "mask_2" s1h.2 with
    | error e =>
      rw [hs2] at hcong
      simp only [Except.map] at hcong
      rw [← hcong]
    | ok s2h =>
      rw [hs2] at hcong
      simp only [Except.map] at hcong
      rw [← hcong]

theorem foldl_max_eq (l : List Nat) : ∀ a : Nat, l.foldl max a = max a (l.foldr max 0) := by
  induction l with
  | nil => intro a; simp
  | cons b l ih =>
    intro a
    simp only [List.foldl_cons, List.foldr_cons, ih (max a b), Nat.max_assoc]

theorem pyMax_ok_eq (l : List Nat) (mx : Nat) (heq : pyMax l = .ok mx) : mx = listMax l := by
  cases l with
  | nil => exact absurd heq (by simp [pyMax])
  | cons x xs =>
    simp only [pyMax, Except.ok.injEq] at heq
    subst heq
    rw [foldl_max_eq, listMax, List.foldr_cons]

theorem le_listMax_of_mem (l : List Nat) (x : Nat) (hx : x ∈ l) : x ≤ listMax l := by
  induction l with
  | nil => cases hx
  | cons b l ih =>
    rcases List.mem_cons.mp hx with h | h
    · subst h; exact Nat.le_max_left _ _
    · exact le_trans (ih h) (Nat.le_max_right _ _)

theorem mapLookup_length (fs : List Feature) (key : String) (rs : List Nat)
    (heq : mapLookup fs key = .ok rs) : rs.length = fs.length := by
  induction fs generalizing rs with
  | nil =>
    unfold mapLookup at heq
    simp only [Except.ok.injEq] at heq
    subst heq
    rfl
  | cons f fs ih =>
    unfold mapLookup at heq
    cases hl : lookupDocRef f key with
    | error e => simp only [hl] at heq; exact absurd heq (by simp)
    | ok r0 =>
      simp only [hl] at heq
      cases hm : mapLookup fs key with
      | error e => simp only [hm] at heq; exact absurd heq (by simp)
      | ok rs0 =>
        simp only [hm, Except.ok.injEq] at heq
        subst heq
        simp [ih rs0 hm]

theorem getD_of_map_length (l : Doc) (i : Nat) (h : i < l.length) :
    (l.map List.length).getD i 0 = (l.getD i []).length := by
  simp only [List.getD_eq_getElem?_getD, List.getElem?_map]
  rcases List.getElem?_eq_some_iff.mpr ⟨h, rfl⟩ with _
  rw [List.getElem?_eq_getElem h]
  simp [List.getElem?_eq_getElem h]

theorem getD_replicate_lt {α : Type} (a : α) (n i : Nat) (d : α) (h : i < n) :
    (List.replicate n a).getD i d = a := by
  rw [List.getD_eq_getElem _ _ (by simpa using h), List.getElem_replicate]

theorem CustomDataCollator.purePad_shape (c : CustomDataCollator) (senLen docLen : Nat)
    (a m s2 m2 : Doc)
    (hlen : a.map List.length = m.map List.length)
    (hba : ∀ s ∈ a, s.length ≤ senLen)
    (heq : c.purePad senLen docLen a m = .ok (s2, m2)) :
    s2.length = docLen ∧ m2.length = docLen ∧
    (∀ r ∈ s2, r.length = senLen) ∧ (∀ r ∈ m2, r.length = senLen) := by
  have hlen0 : a.length = m.length := by
    have := congrArg List.length hlen
    simpa using this
  have hbm : ∀ s ∈ m, s.length ≤ senLen := by
    intro s hs
    have hmem : s.length ∈ a.map List.length := by
      rw [hlen]; exact List.mem_map_of_mem _ hs
    obtain ⟨t, ht, hts⟩ := List.mem_map.mp hmem
    rw [← hts]; exact hba t ht
  have heq2 : c.pad_document docLen
      (a.map fun s => s ++ List.replicate (senLen - s.length) c.padTokenId)
      (m.map fun s => s ++ List.replicate (senLen - s.length) (0 : Int)) = .ok (s2, m2) := heq
  have hrow_a : ∀ r ∈ a.map fun s => s ++ List.replicate (senLen - s.length) c.padTokenId,
      r.length = senLen := by
    intro r hr
    obtain ⟨s, hs, rfl⟩ := List.mem_map.mp hr
    have := hba s hs
    simp only [List.length_append, List.length_replicate]
    omega
  have hrow_m : ∀ r ∈ m.map fun s => s ++ List.replicate (senLen - s.length) (0 : Int),
      r.length = senLen := by
    intro r hr
    obtain ⟨s, hs, rfl⟩ := List.mem_map.mp hr
    have := hbm s hs
    simp only [List.length_append, List.length_replicate]
    omega
  unfold CustomDataCollator.pad_document at heq2
  cases hm0 : m.map fun s => s ++ List.replicate (senLen - s.length) (0 : Int) with
  | nil => simp only [hm0] at heq2; exact absurd heq2 (by simp)
  | cons m0 pmrest =>
    simp only [hm0] at heq2
    cases ha0 : a.map fun s => s ++ List.replicate (senLen - s.length) c.padTokenId with
    | nil => simp only [ha0] at heq2; exact absurd heq2 (by simp)
    | cons s0 parest =>
      simp only [ha0] at heq2
      have hma : (m0 :: pmrest).length = m.length := by rw [← hm0]; simp
      have haa : (s0 :: parest).length = a.length := by rw [← ha0]; simp
      have hs0 : s0.length = senLen := hrow_a s0 (by rw [ha0]; exact List.mem_cons_self _ _)
      have hm0l : m0.length = senLen := hrow_m m0 (by rw [hm0]; exact List.mem_cons_self _ _)
      split at heq2
      · -- append branch: fewer sentences than doc_len
        simp only [Except.ok.injEq, Prod.mk.injEq] at heq2
        obtain ⟨hs2, hm2⟩ := heq2
        subst hs2; subst hm2
        refine ⟨by simp only [List.length_append, List.length_replicate]; omega,
                by simp only [List.length_append, List.length_replicate]; omega,
                ?_, ?_⟩
        · intro r hr
          rcases List.mem_append.mp hr with hr1 | hr1
          · exact hrow_a r (by rw [ha0]; exact hr1)
          · rw [List.eq_of_mem_replicate hr1]
            simp [hs0]
        · intro r hr
          rcases List.mem_append.mp hr with hr1 | hr1
          · exact hrow_m r (by rw [hm0]; exact hr1)
          · rw [List.eq_of_mem_replicate hr1]
            simp [hm0l]
      · split at heq2
        · -- truncate branch: more sentences than doc_len
          simp only [Except.ok.injEq, Prod.mk.injEq] at heq2
          obtain ⟨hs2, hm2⟩ := heq2
          subst hs2; subst hm2
          refine ⟨by simp only [List.length_take]; omega,
                  by simp only [List.length_take]; omega,
                  ?_, ?_⟩
          · intro r hr
            exact hrow_a r (by rw [ha0]; exact List.take_subset _ _ hr)
          · intro r hr
            exact hrow_m r (by rw [hm0]; exact List.take_subset _ _ hr)
        · -- exact-fit branch
          simp only [Except.ok.injEq, Prod.mk.injEq] at heq2
          obtain ⟨hs2, hm2⟩ := heq2
          subst hs2; subst hm2
          refine ⟨by omega, by omega, ?_, ?_⟩
          · intro r hr
            exact hrow_a r (by rw [ha0]; exact hr)
          · intro r hr
            exact hrow_m r (by rw [hm0]; exact hr)

theorem toTensor_ok (t ts : Tensor3) (heq : toTensor t = .ok ts) : ts = t := by
  unfold toTensor at heq
  split at heq
  · simp only [Except.ok.injEq] at heq
    exact heq.symm
  · exact absurd heq (by simp)

theorem CustomDataCollator.purePadAll_shape (c : CustomDataCollator) (senLen docLen : Nat)
    (prs : List (Doc × Doc)) (ps : List (Doc × Doc))
    (hwf : ∀ pr ∈ prs, pr.1.map List.length = pr.2.map List.length)
    (hb : ∀ pr ∈ prs, ∀ s ∈ pr.1, s.length ≤ senLen)
    (heq : c.purePadAll senLen docLen prs = .ok ps) :
    ps.length = prs.length ∧
    ∀ p ∈ ps, p.1.length = docLen ∧ p.2.length = docLen ∧
      (∀ r ∈ p.1, r.length = senLen) ∧ (∀ r ∈ p.2, r.length = senLen) := by
  induction prs generalizing ps with
  | nil =>
    unfold CustomDataCollator.purePadAll at heq
    simp only [Except.ok.injEq] at heq
    subst heq
    exact ⟨rfl, by simp⟩
  | cons pr rest ih =>
    unfold CustomDataCollator.purePadAll at heq
    cases hpp : c.purePad senLen docLen pr.1 pr.2 with
    | error e => simp only [hpp] at heq; exact absurd heq (by simp)
    | ok p =>
      simp only [hpp] at heq
      cases hpa : c.purePadAll senLen docLen rest with
      | error e => simp only [hpa] at heq; exact absurd heq (by simp)
      | ok ps0 =>
        simp only [hpa, Except.ok.injEq] at heq
        subst heq
        have hhd := c.purePad_shape senLen docLen pr.1 pr.2 p.1 p.2
          (hwf pr (List.mem_cons_self _ _)) (hb pr (List.mem_cons_self _ _)) (by rw [hpp])
        have htl := ih ps0
          (fun x hx => hwf x (List.mem_cons_of_mem _ hx))
          (fun x hx => hb x (List.mem_cons_of_mem _ hx)) hpa
        refine ⟨by simp [htl.1], ?_⟩
        intro q hq
        rcases List.mem_cons.mp hq with hq1 | hq1
        · subst hq1; exact hhd
        · exact htl.2 q hq1

theorem CustomDataCollator.pureCallSlot_shape (c : CustomDataCollator) (ak mk : String)
    (arts masks : List Doc) (ts tm : Tensor3)
    (hlen : arts.length = masks.length)
    (hwf : ∀ pr ∈ arts.zip masks, pr.1.map List.length = pr.2.map List.length)
    (hbound : ∀ d ∈ arts, ∀ s ∈ d, s.length ≤ c.max_sentence_len)
    (heq : c.pureCallSlot ak mk arts masks = .ok (ts, tm)) :
    tensorShape ts arts.length
      (min c.max_document_len (listMax (masks.map List.length)))
      (min c.max_sentence_len (listMax ((arts.map fun d => d.map List.length).flatten)))
    ∧ tensorShape tm arts.length
      (min c.max_document_len (listMax (masks.map List.length)))
      (min c.max_sentence_len (listMax ((arts.map fun d => d.map List.length).flatten))) := by
  unfold CustomDataCollator.pureCallSlot at heq
  by_cases hassert : ((arts.map fun d => d.map List.length).flatten
      = (masks.map fun d => d.map List.length).flatten)
  case neg =>
    simp only [if_neg hassert] at heq
    exact absurd heq (by simp)
  case pos =>
    simp only [if_pos hassert] at heq
    cases hmx : pyMax ((arts.map fun d => d.map List.length).flatten) with
    | error e => simp only [hmx] at heq; exact absurd heq (by simp)
    | ok mx =>
      simp only [hmx] at heq
      cases hmxd : pyMax (masks.map List.length) with
      | error e => simp only [hmxd] at heq; exact absurd heq (by simp)
      | ok mxd =>
        simp only [hmxd] at heq
        have hmxe : mx = listMax ((arts.map fun d => d.map List.length).flatten) :=
          pyMax_ok_eq _ _ hmx
        have hmxde : mxd = listMax (masks.map List.length) := pyMax_ok_eq _ _ hmxd
        cases hpa : c.purePadAll (min c.max_sentence_len mx) (min c.max_document_len mxd)
            (arts.zip masks) with
        | error e => simp only [hpa] at heq; exact absurd heq (by simp)
        | ok pairs =>
          simp only [hpa] at heq
          have hb2 : ∀ pr ∈ arts.zip masks, ∀ s ∈ pr.1,
              s.length ≤ min c.max_sentence_len mx := by
            intro pr hpr s hs
            obtain ⟨h1, -⟩ := List.of_mem_zip hpr
            refine le_min (hbound pr.1 h1 s hs) ?_
            rw [hmxe]
            apply le_listMax_of_mem
            exact List.mem_flatten.mpr ⟨pr.1.map List.length,
              List.mem_map_of_mem _ h1, List.mem_map_of_mem _ hs⟩
          have hsh := c.purePadAll_shape (min c.max_sentence_len mx)
            (min c.max_document_len mxd) (arts.zip masks) pairs hwf hb2 hpa
          cases ht1 : toTensor (pairs.map Prod.fst) with
          | error e => simp only [ht1] at heq; exact absurd heq (by simp)
          | ok ts0 =>
            simp only [ht1] at heq
            cases ht2 : toTensor (pairs.map Prod.snd) with
            | error e => simp only [ht2] at heq; exact absurd heq (by simp)
            | ok tm0 =>
              simp only [ht2, Except.ok.injEq, Prod.mk.injEq] at heq
              obtain ⟨hts, htm⟩ := heq
              subst hts; subst htm
              rw [toTensor_ok _ _ ht1, toTensor_ok _ _ ht2]
              have hplen : pairs.length = arts.length := by
                rw [hsh.1, List.length_zip, hlen, Nat.min_self]
              subst hmxe; subst hmxde
              constructor
              · refine ⟨by simp [hplen], ?_, ?_⟩
                · intro doc hdoc
                  obtain ⟨p, hp, rfl⟩ := List.mem_map.mp hdoc
                  exact (hsh.2 p hp).1
                · intro doc hdoc sen hsen
                  obtain ⟨p, hp, rfl⟩ := List.mem_map.mp hdoc
                  exact (hsh.2 p hp).2.2.1 sen hsen
              · refine ⟨by simp [hplen], ?_, ?_⟩
                · intro doc hdoc
                  obtain ⟨p, hp, rfl⟩ := List.mem_map.mp hdoc
                  exact (hsh.2 p hp).2.1
                · intro doc hdoc sen hsen
                  obtain ⟨p, hp, rfl⟩ := List.mem_map.mp hdoc
                  exact (hsh.2 p hp).2.2.2 sen hsen

/-- **C4** (code bug): the slot loop is hard-coded to `range(1, 3)`, so a
batch that carries only the configured `article_1` slot (single-document
classification, `article_numbers = 1`) does not collate to an
`article_1`-only output: the collator demands an `article_2` key and fails
with a `KeyError`.  The callers (`train.py`, `finetuning.py`) construct the
collator with an `article_numbers` argument, and the code marks the loop
with a TODO to make the slot count dynamic, so the configured-slots behaviour
is the intent and the hard-coded loop the slip. -/
theorem collator_single_slot_keyerror :
    (exC4_c.call exC4_features exC4_heap).map Prod.fst
      = .error (.keyError "article_2") := by
  rfl

/-- **C3** (code bug): `__call__` builds its output dict from scratch and
only ever inserts the per-slot token and mask tensors; the batch labels are
not passed through.  The fine-tuning training loop reads `batch["labels"]`
from the collated batch, so the pass-through described by the spec is the
intent and the dropped key the slip. -/
theorem collator_drops_labels :
    (exC3_c.call exC3_features exC3_heap).map Prod.fst = .ok exC3_batch
    ∧ (exC3_features.getD 0 []).find? (fun kv => kv.1 = "labels")
        = some ("labels", FeatVal.intVal 1)
    ∧ exC3_batch.find? (fun kv => kv.1 = "labels") = none := by
  refine ⟨by rfl, by rfl, by rfl⟩

/-- **C2** (code bug): `pad_sentence` computes the pad amount as
`sen_len - len(sentence)`, and `[PAD] * n` is empty for `n ≤ 0`, so a
sentence longer than `sen_len` is returned whole — it is not truncated to
its first `sen_len` tokens as the spec describes (and as the function's own
docstring, "each sentence has the same number of words", requires).  With
`sen_len = 2` the 3-token sentence survives at length 3 instead of
becoming `[1, 2]`. -/
theorem pad_sentence_no_truncation :
    exC2_c.pad_sentence 2 [[1, 2, 3]] [[1, 1, 1]] = ([[1, 2, 3]], [[1, 1, 1]])
    ∧ ([[1, 2, 3]] : Doc) ≠ [[1, 2]] := by
  refine ⟨by rfl, by decide⟩

/-- **C1** (counterexample): on a batch whose only sentence has 3 tokens
while `max_sentence_len = 2`, the collator succeeds and emits an `article_1`
tensor of shape `(1, 1, 3)`: its sentence dimension is neither
`sen_len = min(max_sentence_len, 3) = 2` nor bounded by `max_sentence_len`,
refuting the claimed output shape. -/
theorem collator_shape_counterexample :
    (exC1_c.call exC1_features exC1_heap).map Prod.fst = .ok exC1_batch
    ∧ min exC1_c.max_sentence_len 3 = 2
    ∧ ¬ tensorShape [[[1, 2, 3]]] 1 1 (min exC1_c.max_sentence_len 3) := by
  refine ⟨by rfl, by rfl, ?_⟩
  intro hsh
  have := hsh.2.2 [[1, 2, 3]] (by simp) [1, 2, 3] (by simp)
  simp [exC1_c] at this

/-- **C6** (counterexample): the assertion compares the sentence-length
lists flattened across the whole batch, not per example.  Here example 0 has
two token sentences but one mask sentence (and example 1 the converse), yet
the flattened lists coincide, so the collator raises no error at all and
returns a batch — refuting "fails whenever some example mismatches". -/
theorem collator_mismatch_undetected :
    (exC6_c.call exC6_features exC6_heap).map Prod.fst = .ok exC6_batch
    ∧ (exC6_heap.mem 0).map List.length ≠ (exC6_heap.mem 1).map List.length := by
  refine ⟨by rfl, by decide⟩

/-- **C5** (counterexample): on the same kind of per-example-mismatched but
flatten-consistent batch, collation succeeds while the token and mask
tensors pad at different positions: in example 0, output row 1 holds the
real token `12` while the mask row 1 is the all-zero padding row, so the
claimed invariant fails for the collated batch. -/
theorem collator_padding_misaligned :
    (exC5_c.call exC5_features exC5_heap).map Prod.fst = .ok exC5_batch
    ∧ ¬ docPadInvariant exC5_c.padTokenId [[11], [12]] [[1]]
        [[11], [12], [9]] [[1], [0], [0]] := by
  refine ⟨by rfl, ?_⟩
  intro hinv
  have h1 := (hinv.2 1 (by simp)).2 0 (by simp)
  have h2 := h1.1
  simp at h2

theorem CustomDataCollator.call_ok_pure (c : CustomDataCollator) (features : List Feature)
    (h : Heap) (hval : ∀ f ∈ features, FeatureValid h f)
    (ar1 mr1 ar2 mr2 : List Nat)
    (hl1 : mapLookup features "article_1" = .ok ar1)
    (hl2 : mapLookup features "mask_1" = .ok mr1)
    (hl3 : mapLookup features "article_2" = .ok ar2)
    (hl4 : mapLookup features "mask_2" = .ok mr2)
    (b : Batch) (h2 : Heap) (heq : c.call features h = .ok (b, h2)) :
    ∃ s1 s2 : Tensor3 × Tensor3,
      b = [("article_1", s1.1), ("mask_1", s1.2), ("article_2", s2.1), ("mask_2", s2.2)] ∧
      c.pureCallSlot "article_1" "mask_1" (ar1.map h.mem) (mr1.map h.mem) = .ok s1 ∧
      c.pureCallSlot "article_2" "mask_2" (ar2.map h.mem) (mr2.map h.mem) = .ok s2 := by
  have hs1 := c.callSlot_fst features "article_1" "mask_1" h hval
  simp only [hl1, hl2] at hs1
  have hs2 := c.callSlot_fst features "article_2" "mask_2" h hval
  simp only [hl3, hl4] at hs2
  have hf := c.call_fst features h hval
  rw [heq, hs1, hs2] at hf
  simp only [Except.map] at hf
  cases hp1 : c.pureCallSlot "article_1" "mask_1" (ar1.map h.mem) (mr1.map h.mem) with
  | error e => simp only [hp1] at hf; exact absurd hf (by simp)
  | ok s1 =>
    simp only [hp1] at hf
    cases hp2 : c.pureCallSlot "article_2" "mask_2" (ar2.map h.mem) (mr2.map h.mem) with
    | error e => simp only [hp2] at hf; exact absurd hf (by simp)
    | ok s2 =>
      simp only [hp2, Except.ok.injEq] at hf
      exact ⟨s1, s2, hf, rfl, rfl⟩

/-- **C1** (amended): for a batch of per-example well-formed records
(parallel token/mask length lists) in which every sentence is within
`max_sentence_len`, each slot of the collated output consists of two tensors
of shape `(batch_size, doc_len, sen_len)` with
`sen_len = min(max_sentence_len, batch max sentence length)` and
`doc_len = min(max_document_len, batch max sentence count)`, and these
dimensions are bounded by the configured ceilings and by the batch's true
maxima.  The restriction to sentences within `max_sentence_len` is forced by
the counterexample: an over-long sentence is not truncated and escapes the
claimed shape. -/
theorem collator_output_shape (c : CustomDataCollator) (features : List Feature) (h : Heap)
    (hval : ∀ f ∈ features, FeatureValid h f)
    (ar1 mr1 ar2 mr2 : List Nat)
    (hl1 : mapLookup features "article_1" = .ok ar1)
    (hl2 : mapLookup features "mask_1" = .ok mr1)
    (hl3 : mapLookup features "article_2" = .ok ar2)
    (hl4 : mapLookup features "mask_2" = .ok mr2)
    (hwf1 : ∀ pr ∈ (ar1.map h.mem).zip (mr1.map h.mem),
      pr.1.map List.length = pr.2.map List.length)
    (hwf2 : ∀ pr ∈ (ar2.map h.mem).zip (mr2.map h.mem),
      pr.1.map List.length = pr.2.map List.length)
    (hb1 : ∀ d ∈ ar1.map h.mem, ∀ s ∈ d, s.length ≤ c.max_sentence_len)
    (hb2 : ∀ d ∈ ar2.map h.mem, ∀ s ∈ d, s.length ≤ c.max_sentence_len)
    (b : Batch) (h2 : Heap) (heq : c.call features h = .ok (b, h2)) :
    ∃ ts1 tm1 ts2 tm2 : Tensor3,
      b = [("article_1", ts1), ("mask_1", tm1), ("article_2", ts2), ("mask_2", tm2)] ∧
      (let M1 := listMax (((ar1.map h.mem).map fun d => d.map List.length).flatten)
       let N1 := listMax ((mr1.map h.mem).map List.length)
       let S1 := min c.max_sentence_len M1
       let D1 := min c.max_document_len N1
       tensorShape ts1 features.length D1 S1 ∧ tensorShape tm1 features.length D1 S1 ∧
       S1 ≤ c.max_sentence_len ∧ D1 ≤ c.max_document_len ∧ S1 ≤ M1 ∧ D1 ≤ N1) ∧
      (let M2 := listMax (((ar2.map h.mem).map fun d => d.map List.length).flatten)
       let N2 := listMax ((mr2.map h.mem).map List.length)
       let S2 := min c.max_sentence_len M2
       let D2 := min c.max_document_len N2
       tensorShape ts2 features.length D2 S2 ∧ tensorShape tm2 features.length D2 S2 ∧
       S2 ≤ c.max_sentence_len ∧ D2 ≤ c.max_document_len ∧ S2 ≤ M2 ∧ D2 ≤ N2) := by
  obtain ⟨s1, s2, hb, hp1, hp2⟩ :=
    c.call_ok_pure features h hval ar1 mr1 ar2 mr2 hl1 hl2 hl3 hl4 b h2 heq
  have hlen1 : (ar1.map h.mem).length = (mr1.map h.mem).length := by
    simp [mapLookup_length features _ _ hl1, mapLookup_length features _ _ hl2]
  have hlen2 : (ar2.map h.mem).length = (mr2.map h.mem).length := by
    simp [mapLookup_length features _ _ hl3, mapLookup_length features _ _ hl4]
  have hsh1 := c.pureCallSlot_shape "article_1" "mask_1" (ar1.map h.mem) (mr1.map h.mem)
    s1.1 s1.2 hlen1 hwf1 hb1 (by rw [hp1])
  have hsh2 := c.pureCallSlot_shape "article_2" "mask_2" (ar2.map h.mem) (mr2.map h.mem)
    s2.1 s2.2 hlen2 hwf2 hb2 (by rw [hp2])
  have hflen1 : (ar1.map h.mem).length = features.length := by
    simp [mapLookup_length features _ _ hl1]
  have hflen2 : (ar2.map h.mem).length = features.length := by
    simp [mapLookup_length features _ _ hl3]
  rw [hflen1] at hsh1
  rw [hflen2] at hsh2
  exact ⟨s1.1, s1.2, s2.1, s2.2, hb,
    ⟨hsh1.1, hsh1.2, min_le_left _ _, min_le_left _ _, min_le_right _ _, min_le_right _ _⟩,
    ⟨hsh2.1, hsh2.2, min_le_left _ _, min_le_left _ _, min_le_right _ _, min_le_right _ _⟩⟩

theorem CustomDataCollator.pad_document_error (c : CustomDataCollator) (docLen : Nat)
    (sentences masks : Doc) (e : PyError)
    (heq : c.pad_document docLen sentences masks = .error e) : e = .indexError := by
  cases masks with
  | nil =>
    simp only [CustomDataCollator.pad_document, Except.error.injEq] at heq
    exact heq.symm
  | cons m0 mrest =>
    cases sentences with
    | nil =>
      simp only [CustomDataCollator.pad_document, Except.error.injEq] at heq
      exact heq.symm
    | cons s0 srest =>
      simp only [CustomDataCollator.pad_document] at heq
      split at heq
      · exact absurd heq (by simp)
      · split at heq
        · exact absurd heq (by simp)
        · exact absurd heq (by simp)

theorem CustomDataCollator.processFeature_error (c : CustomDataCollator) (senLen docLen : Nat)
    (h : Heap) (tr mr : Nat) (e : PyError)
    (heq : c.processFeature senLen docLen h tr mr = .error e) : e = .indexError := by
  have hfst := c.processFeature_fst senLen docLen h tr mr
  rw [heq] at hfst
  simp only [Except.map] at hfst
  unfold CustomDataCollator.purePad at hfst
  exact c.pad_document_error _ _ _ _ hfst.symm

theorem CustomDataCollator.processAll_error (c : CustomDataCollator) (senLen docLen : Nat)
    (prs : List (Nat × Nat)) (h : Heap) (e : PyError)
    (heq : c.processAll senLen docLen prs h = .error e) : e = .indexError := by
  induction prs generalizing h with
  | nil => exact absurd heq (by simp [CustomDataCollator.processAll])
  | cons pr rest ih =>
    unfold CustomDataCollator.processAll at heq
    cases hpf : c.processFeature senLen docLen h pr.1 pr.2 with
    | error e0 =>
      simp only [hpf, Except.error.injEq] at heq
      subst heq
      exact c.processFeature_error _ _ _ _ _ _ hpf
    | ok ph =>
      simp only [hpf] at heq
      cases hpa : c.processAll senLen docLen rest ph.2 with
      | error e0 =>
        simp only [hpa, Except.error.injEq] at heq
        subst heq
        exact ih ph.2 hpa
      | ok psh => simp only [hpa] at heq; exact absurd heq (by simp)

theorem toTensor_error (t : Tensor3) (e : PyError) (heq : toTensor t = .error e) :
    e = .valueErrorJagged := by
  unfold toTensor at heq
  split at heq
  · exact absurd heq (by simp)
  · simp only [Except.error.injEq] at heq
    exact heq.symm

theorem lookupDocRef_error (f : Feature) (key : String) (e : PyError)
    (heq : lookupDocRef f key = .error e) :
    e = .keyError key ∨ e = .typeError key := by
  unfold lookupDocRef at heq
  cases hfind : f.find? (fun kv => kv.1 = key) with
  | none =>
    simp only [hfind, Except.error.injEq] at heq
    exact Or.inl heq.symm
  | some kv =>
    simp only [hfind] at heq
    cases hkv : kv.2 with
    | docRef r => simp only [hkv] at heq; exact absurd heq (by simp)
    | intVal v =>
      simp only [hkv, Except.error.injEq] at heq
      exact Or.inr heq.symm

theorem mapLookup_error (fs : List Feature) (key : String) (e : PyError)
    (heq : mapLookup fs key = .error e) :
    e = .keyError key ∨ e = .typeError key := by
  induction fs with
  | nil => exact absurd heq (by simp [mapLookup])
  | cons f fs ih =>
    unfold mapLookup at heq
    cases hl : lookupDocRef f key with
    | error e0 =>
      simp only [hl, Except.error.injEq] at heq
      subst heq
      exact lookupDocRef_error f key _ hl
    | ok r0 =>
      simp only [hl] at heq
      cases hm : mapLookup fs key with
      | error e0 =>
        simp only [hm, Except.error.injEq] at heq
        subst heq
        exact ih hm
      | ok rs0 => simp only [hm] at heq; exact absurd heq (by simp)

theorem pyMax_error (l : List Nat) (e : PyError) (heq : pyMax l = .error e) :
    e = .valueErrorMaxEmpty := by
  cases l with
  | nil => simp only [pyMax, Except.error.injEq] at heq; exact heq.symm
  | cons x xs => exact absurd heq (by simp [pyMax])

theorem CustomDataCollator.callSlot_error_assert (c : CustomDataCollator)
    (features : List Feature) (artKey maskKey : String) (h : Heap) (m : String)
    (heq : c.callSlot features artKey maskKey h = .error (.assertionError m)) :
    m = "There is a mismatch for " ++ artKey ++ " and " ++ maskKey ++ "." ∧
    ∃ ar mr, mapLookup features artKey = .ok ar ∧ mapLookup features maskKey = .ok mr ∧
      flatSenLens h ar ≠ flatSenLens h mr := by
  unfold CustomDataCollator.callSlot at heq
  cases hma : mapLookup features artKey with
  | error e =>
    simp only [hma, Except.error.injEq] at heq
    rcases mapLookup_error features artKey e hma with h0 | h0 <;> simp [h0] at heq
  | ok ar =>
    simp only [hma] at heq
    cases hmm : mapLookup features maskKey with
    | error e =>
      simp only [hmm, Except.error.injEq] at heq
      rcases mapLookup_error features maskKey e hmm with h0 | h0 <;> simp [h0] at heq
    | ok mr =>
      simp only [hmm] at heq
      split at heq
      · cases hmx : pyMax (flatSenLens h ar) with
        | error e =>
          simp only [hmx, Except.error.injEq] at heq
          rw [pyMax_error _ _ hmx] at heq
          exact absurd heq (by simp)
        | ok mx =>
          simp only [hmx] at heq
          cases hmxd : pyMax (mr.map fun r => (h.mem r).length) with
          | error e =>
            simp only [hmxd, Except.error.injEq] at heq
            rw [pyMax_error _ _ hmxd] at heq
            exact absurd heq (by simp)
          | ok mxd =>
            simp only [hmxd] at heq
            cases hpr : c.processAll (min c.max_sentence_len mx)
                (min c.max_document_len mxd) (ar.zip mr) h with
            | error e =>
              simp only [hpr, Except.error.injEq] at heq
              rw [c.processAll_error _ _ _ _ _ hpr] at heq
              exact absurd heq (by simp)
            | ok psh =>
              simp only [hpr] at heq
              cases ht1 : toTensor (psh.1.map Prod.fst) with
              | error e =>
                simp only [ht1, Except.error.injEq] at heq
                rw [toTensor_error _ _ ht1] at heq
                exact absurd heq (by simp)
              | ok ts =>
                simp only [ht1] at heq
                cases ht2 : toTensor (psh.1.map Prod.snd) with
                | error e =>
                  simp only [ht2, Except.error.injEq] at heq
                  rw [toTensor_error _ _ ht2] at heq
                  exact absurd heq (by simp)
                | ok tm => simp only [ht2] at heq; exact absurd heq (by simp)
      · simp only [Except.error.injEq, PyError.assertionError.injEq] at heq
        exact ⟨heq.symm, ar, mr, rfl, rfl, by assumption⟩

/-- **C6** (amended): the collator's validation compares the sentence-length
lists flattened across the whole batch, not per example.  It raises the
mismatch assertion for `article_1`/`mask_1` whenever the two flattened lists
for that slot differ, and conversely any mismatch assertion it raises means
the flattened lists of the corresponding slot differ; per-example mismatches
whose flattened lists coincide are not rejected (see the counterexample). -/
theorem collator_assert_is_batch_flattened (c : CustomDataCollator)
    (features : List Feature) (h : Heap)
    (hval : ∀ f ∈ features, FeatureValid h f) :
    (∀ ar mr, mapLookup features "article_1" = .ok ar →
       mapLookup features "mask_1" = .ok mr →
       flatSenLens h ar ≠ flatSenLens h mr →
       c.call features h
         = .error (.assertionError "There is a mismatch for article_1 and mask_1."))
    ∧ (∀ m, c.call features h = .error (.assertionError m) →
        (m = "There is a mismatch for article_1 and mask_1." ∧
         ∃ ar mr, mapLookup features "article_1" = .ok ar ∧
           mapLookup features "mask_1" = .ok mr ∧
           flatSenLens h ar ≠ flatSenLens h mr)
        ∨ (m = "There is a mismatch for article_2 and mask_2." ∧
           ∃ ar mr, mapLookup features "article_2" = .ok ar ∧
             mapLookup features "mask_2" = .ok mr ∧
             flatSenLens h ar ≠ flatSenLens h mr)) := by
  constructor
  · intro ar mr har hmr hne
    have hcs : c.callSlot features "article_1" "mask_1" h
        = .error (.assertionError "There is a mismatch for article_1 and mask_1.") := by
      unfold CustomDataCollator.callSlot
      simp only [har, hmr, if_neg hne]
      rfl
    unfold CustomDataCollator.call
    simp only [hcs]
  · intro m heq
    unfold CustomDataCollator.call at heq
    cases hs1 : c.callSlot features "article_1" "mask_1" h with
    | error e =>
      simp only [hs1, Except.error.injEq] at heq
      subst heq
      exact Or.inl (c.callSlot_error_assert features "article_1" "mask_1" h m hs1)
    | ok s1h =>
      simp only [hs1] at heq
      cases hs2 : c.callSlot features "article_2" "mask_2" s1h.2 with
      | error e =>
        simp only [hs2, Except.error.injEq] at heq
        subst heq
        obtain ⟨hm, ar, mr, har, hmr, hne⟩ :=
          c.callSlot_error_assert features "article_2" "mask_2" s1h.2 m hs2
        refine Or.inr ⟨hm, ar, mr, har, hmr, ?_⟩
        obtain ⟨hle, hmem⟩ := c.callSlot_frame features _ _ h s1h.1 s1h.2 (by rw [hs1])
        have hag1 : flatSenLens s1h.2 ar = flatSenLens h ar := by
          unfold flatSenLens
          congr 1
          apply List.map_congr_left
          intro r hr
          rw [hmem r (mapLookup_valid h features _ ar har hval r hr)]
        have hag2 : flatSenLens s1h.2 mr = flatSenLens h mr := by
          unfold flatSenLens
          congr 1
          apply List.map_congr_left
          intro r hr
          rw [hmem r (mapLookup_valid h features _ mr hmr hval r hr)]
        rw [hag1, hag2] at hne
        exact hne
      | ok s2h => simp only [hs2] at heq; exact absurd heq (by simp)

theorem collator_assert_flattened_witness :
    (∀ f ∈ exC6w_features, FeatureValid exC6w_heap f) ∧
    flatSenLens exC6w_heap [0] ≠ flatSenLens exC6w_heap [1] ∧
    exC6w_c.call exC6w_features exC6w_heap
      = .error (.assertionError "There is a mismatch for article_1 and mask_1.") := by
  have hv : ∀ f ∈ exC6w_features, FeatureValid exC6w_heap f := by decide
  refine ⟨hv, by decide, ?_⟩
  exact (collator_assert_is_batch_flattened exC6w_c exC6w_features exC6w_heap hv).1
    [0] [1] (by rfl) (by rfl) (by decide)

/-- **C9** (confirmed): collation neither mutates the input records — every
heap cell the feature records can reach is unchanged by the call — nor
depends on anything but their contents, so invoking the collator a second
time on the same feature records yields the identical output batch
(`pad_sentence` builds fresh lists, and the in-place document-level padding
and truncation write only to those copies). -/
theorem collator_call_idempotent (c : CustomDataCollator) (features : List Feature)
    (h : Heap) (hval : ∀ f ∈ features, FeatureValid h f)
    (b : Batch) (h2 : Heap) (heq : c.call features h = .ok (b, h2)) :
    (∀ r, r < h.next → h2.mem r = h.mem r) ∧
    (c.call features h2).map Prod.fst = .ok b := by
  obtain ⟨hle, hmem⟩ := c.call_frame features h b h2 heq
  refine ⟨hmem, ?_⟩
  have hval2 : ∀ f ∈ features, FeatureValid h2 f := by
    intro f hf kv hkv
    have hb := hval f hf kv hkv
    cases hv2 : kv.2 with
    | docRef r =>
      rw [hv2] at hb
      simp only [FeatVal.refBound, decide_eq_true_eq] at hb ⊢
      omega
    | intVal v => simp [FeatVal.refBound]
  have hcong1 := c.callSlot_fst_congr features "article_1" "mask_1" h h2 hval hval2 hmem
  have hcong2 := c.callSlot_fst_congr features "article_2" "mask_2" h h2 hval hval2 hmem
  rw [c.call_fst features h2 hval2, hcong1, hcong2,
      ← c.call_fst features h hval, heq]
  rfl

theorem collator_call_idempotent_witness :
    (∀ f ∈ exC9_features, FeatureValid exC9_heap f) ∧
    (exC9_c.call exC9_features exC9_heap).map Prod.fst = .ok exC9_batch ∧
    (exC9_c.call exC9_features
        (resultHeap (exC9_c.call exC9_features exC9_heap) exC9_heap)).map Prod.fst
      = .ok exC9_batch := by
  have hv : ∀ f ∈ exC9_features, FeatureValid exC9_heap f := by decide
  have hfst : (exC9_c.call exC9_features exC9_heap).map Prod.fst = .ok exC9_batch := by rfl
  obtain ⟨p, hc⟩ : ∃ p, exC9_c.call exC9_features exC9_heap = .ok p := by
    cases hcc : exC9_c.call exC9_features exC9_heap with
    | error e => rw [hcc] at hfst; simp [Except.map] at hfst
    | ok q => exact ⟨q, rfl⟩
  have hmain := collator_call_idempotent exC9_c exC9_features exC9_heap hv p.1 p.2
    (by rw [hc])
  have hb : p.1 = exC9_batch := by
    rw [hc] at hfst
    simpa [Except.map] using hfst
  refine ⟨hv, hfst, ?_⟩
  rw [hc]
  simp only [resultHeap]
  rw [hmain.2, hb]

theorem collator_output_shape_witness :
    (∀ f ∈ exC1w_features, FeatureValid exC1w_heap f) ∧
    (∀ d ∈ [0].map exC1w_heap.mem, ∀ s ∈ d, s.length ≤ exC1w_c.max_sentence_len) ∧
    (exC1w_c.call exC1w_features exC1w_heap).map Prod.fst = .ok exC1w_batch ∧
    tensorShape [[[21, 22, 0], [23, 24, 25]]] 1 2 3 ∧
    tensorShape [[[1, 1, 0], [1, 1, 1]]] 1 2 3 := by
  have hv : ∀ f ∈ exC1w_features, FeatureValid exC1w_heap f := by decide
  have hfst : (exC1w_c.call exC1w_features exC1w_heap).map Prod.fst = .ok exC1w_batch := by
    rfl
  obtain ⟨p, hc⟩ : ∃ p, exC1w_c.call exC1w_features exC1w_heap = .ok p := by
    cases hcc : exC1w_c.call exC1w_features exC1w_heap with
    | error e => rw [hcc] at hfst; simp [Except.map] at hfst
    | ok q => exact ⟨q, rfl⟩
  have hb : p.1 = exC1w_batch := by
    rw [hc] at hfst
    simpa [Except.map] using hfst
  have hmain := collator_output_shape exC1w_c exC1w_features exC1w_heap hv
    [0] [1] [2] [3] (by rfl) (by rfl) (by rfl) (by rfl)
    (by decide) (by decide) (by decide) (by decide) p.1 p.2 (by rw [hc])
  rw [hb] at hmain
  obtain ⟨ts1, tm1, ts2, tm2, hbeq, hc1, hc2⟩ := hmain
  have he : ts1 = [[[21, 22, 0], [23, 24, 25]]] ∧ tm1 = [[[1, 1, 0], [1, 1, 1]]] := by
    have h0 := hbeq
    simp only [exC1w_batch, List.cons.injEq, Prod.mk.injEq] at h0
    exact ⟨h0.1.2.symm, h0.2.1.2.symm⟩
  refine ⟨hv, by decide, hfst, ?_, ?_⟩
  · have hts := hc1.1
    rw [he.1] at hts
    exact hts
  · have htm := hc1.2.1
    rw [he.2] at htm
    exact htm

theorem getD_take_lt {α : Type} (l : List α) (n i : Nat) (d : α) (h : i < n) :
    (l.take n).getD i d = l.getD i d := by
  rcases Nat.lt_or_ge i l.length with h1 | h1
  · have hlt : i < (l.take n).length := by
      simp only [List.length_take]
      omega
    rw [List.getD_eq_getElem _ _ hlt, List.getD_eq_getElem _ _ h1, List.getElem_take]
  · have h2 : (l.take n).length ≤ i := by
      simp only [List.length_take]
      omega
    rw [List.getD_eq_default _ _ h2, List.getD_eq_default _ _ h1]

theorem getD_map_row (l : Doc) (f : List Int → List Int) (i : Nat) (h : i < l.length) :
    (l.map f).getD i [] = f (l.getD i []) := by
  rw [List.getD_eq_getElem _ _ (by simpa using h), List.getElem_map,
    List.getD_eq_getElem _ _ h]

theorem padRow_align (padId : Int) (senLen : Nat) (aRow mRow : List Int)
    (hl : aRow.length = mRow.length) :
    (aRow ++ List.replicate (senLen - aRow.length) padId).length
      = (mRow ++ List.replicate (senLen - mRow.length) (0 : Int)).length ∧
    ∀ j, j < (aRow ++ List.replicate (senLen - aRow.length) padId).length →
      ((aRow.length ≤ j) ↔ (mRow.length ≤ j)) ∧
      (aRow.length ≤ j →
        (aRow ++ List.replicate (senLen - aRow.length) padId).getD j 0 = padId ∧
        (mRow ++ List.replicate (senLen - mRow.length) (0 : Int)).getD j 0 = 0) ∧
      (¬ aRow.length ≤ j →
        (aRow ++ List.replicate (senLen - aRow.length) padId).getD j 0 = aRow.getD j 0 ∧
        (mRow ++ List.replicate (senLen - mRow.length) (0 : Int)).getD j 0
          = mRow.getD j 0) := by
  constructor
  · simp only [List.length_append, List.length_replicate]
    omega
  · intro j hj
    simp only [List.length_append, List.length_replicate] at hj
    refine ⟨by omega, ?_, ?_⟩
    · intro hge
      constructor
      · rw [List.getD_append_right _ _ _ _ hge, getD_replicate_lt _ _ _ _ (by omega)]
      · rw [List.getD_append_right _ _ _ _ (by omega), getD_replicate_lt _ _ _ _ (by omega)]
    · intro hlt
      constructor
      · rw [List.getD_append _ _ _ _ (by omega)]
      · rw [List.getD_append _ _ _ _ (by omega)]

theorem CustomDataCollator.purePad_align (c : CustomDataCollator) (senLen docLen : Nat)
    (a m s2 m2 : Doc)
    (hlen : a.map List.length = m.map List.length)
    (heq : c.purePad senLen docLen a m = .ok (s2, m2)) :
    docPadInvariant c.padTokenId a m s2 m2 := by
  have hlen0 : a.length = m.length := by
    have := congrArg List.length hlen
    simpa using this
  have hrow : ∀ i, i < a.length → (a.getD i []).length = (m.getD i []).length := by
    intro i hi
    have h1 := getD_of_map_length a i hi
    have h2 := getD_of_map_length m i (by omega)
    rw [← h1, ← h2, hlen]
  have heq2 : c.pad_document docLen
      (a.map fun s => s ++ List.replicate (senLen - s.length) c.padTokenId)
      (m.map fun s => s ++ List.replicate (senLen - s.length) (0 : Int)) = .ok (s2, m2) := heq
  have hPAlen : (a.map fun s => s ++ List.replicate (senLen - s.length) c.padTokenId).length
      = a.length := by simp
  have hPMlen : (m.map fun s => s ++ List.replicate (senLen - s.length) (0 : Int)).length
      = m.length := by simp
  -- the aligned in-range row facts, packaged per index
  have hinrange : ∀ i, i < a.length →
      ((a.map fun s => s ++ List.replicate (senLen - s.length) c.padTokenId).getD i []).length
        = ((m.map fun s => s ++ List.replicate (senLen - s.length) (0 : Int)).getD i []).length
      ∧ ∀ j, j < ((a.map fun s => s ++ List.replicate (senLen - s.length) c.padTokenId).getD i []).length →
        (((a.getD i []).length ≤ j) ↔ ((m.getD i []).length ≤ j)) ∧
        ((a.getD i []).length ≤ j →
          ((a.map fun s => s ++ List.replicate (senLen - s.length) c.padTokenId).getD i []).getD j 0 = c.padTokenId ∧
          ((m.map fun s => s ++ List.replicate (senLen - s.length) (0 : Int)).getD i []).getD j 0 = 0) ∧
        (¬ (a.getD i []).length ≤ j →
          ((a.map fun s => s ++ List.replicate (senLen - s.length) c.padTokenId).getD i []).getD j 0 = (a.getD i []).getD j 0 ∧
          ((m.map fun s => s ++ List.replicate (senLen - s.length) (0 : Int)).getD i []).getD j 0 = (m.getD i []).getD j 0) := by
    intro i hi
    rw [getD_map_row a _ i hi, getD_map_row m _ i (by omega)]
    exact padRow_align c.padTokenId senLen (a.getD i []) (m.getD i []) (hrow i hi)
  unfold CustomDataCollator.pad_document at heq2
  cases hm0 : m.map fun s => s ++ List.replicate (senLen - s.length) (0 : Int) with
  | nil => simp only [hm0] at heq2; exact absurd heq2 (by simp)
  | cons m0 pmrest =>
    simp only [hm0] at heq2
    cases ha0 : a.map fun s => s ++ List.replicate (senLen - s.length) c.padTokenId with
    | nil => simp only [ha0] at heq2; exact absurd heq2 (by simp)
    | cons s0 parest =>
      simp only [ha0] at heq2
      have hanil : a ≠ [] := by
        intro hn
        rw [hn] at ha0
        exact absurd ha0.symm (by simp)
      have hapos : 0 < a.length := List.length_pos.mpr hanil
      have haa : (s0 :: parest).length = a.length := by rw [← ha0]; simp
      have hma : (m0 :: pmrest).length = m.length := by rw [← hm0]; simp
      have hs0 : s0 = (a.map fun s => s ++ List.replicate (senLen - s.length) c.padTokenId).getD 0 [] := by
        rw [ha0]; rfl
      have hm0v : m0 = (m.map fun s => s ++ List.replicate (senLen - s.length) (0 : Int)).getD 0 [] := by
        rw [hm0]; rfl
      have hs0m0 : s0.length = m0.length := by
        rw [hs0, hm0v]
        exact (hinrange 0 hapos).1
      split at heq2
      · -- append all-pad rows up to doc_len
        simp only [Except.ok.injEq, Prod.mk.injEq] at heq2
        obtain ⟨hs2, hm2⟩ := heq2
        subst hs2; subst hm2
        constructor
        · simp only [List.length_append, List.length_replicate]
          omega
        · intro i hi
          simp only [List.length_append, List.length_replicate] at hi
          rcases Nat.lt_or_ge i a.length with hcase | hcase
          · -- an original (padded) row
            have hi1 : i < (s0 :: parest).length := by omega
            have hi2 : i < (m0 :: pmrest).length := by omega
            rw [List.getD_append _ _ _ _ hi1, List.getD_append _ _ _ _ hi2, ← ha0, ← hm0]
            obtain ⟨hl1, hrest⟩ := hinrange i hcase
            refine ⟨hl1, ?_⟩
            intro j hj
            obtain ⟨hiff, hpadv, hvalv⟩ := hrest j hj
            refine ⟨?_, ?_, ?_⟩
            · constructor
              · intro hd
                rcases hd with hd | hd
                · omega
                · exact Or.inr (hiff.mp hd)
              · intro hd
                rcases hd with hd | hd
                · omega
                · exact Or.inr (hiff.mpr hd)
            · intro hd
              rcases hd with hd | hd
              · omega
              · exact hpadv hd
            · intro hd
              have hd2 : ¬ (a.getD i []).length ≤ j := by tauto
              exact hvalv hd2
          · -- an appended all-pad row
            have hi1 : (s0 :: parest).length ≤ i := by omega
            have hi2 : (m0 :: pmrest).length ≤ i := by omega
            rw [List.getD_append_right _ _ _ _ hi1,
                getD_replicate_lt _ _ _ _ (by simp only [haa]; omega),
                List.getD_append_right _ _ _ _ hi2,
                getD_replicate_lt _ _ _ _ (by simp only [hma]; omega)]
            refine ⟨by simp [hs0m0], ?_⟩
            intro j hj
            simp only [List.length_replicate] at hj
            refine ⟨by constructor <;> intro <;> exact Or.inl (by omega), ?_, ?_⟩
            · intro hd
              exact ⟨getD_replicate_lt _ _ _ _ hj, getD_replicate_lt _ _ _ _ (by omega)⟩
            · intro hd
              exact absurd (Or.inl (by omega : a.length ≤ i)) hd
      · split at heq2
        · -- truncate to the first doc_len rows
          simp only [Except.ok.injEq, Prod.mk.injEq] at heq2
          obtain ⟨hs2, hm2⟩ := heq2
          subst hs2; subst hm2
          constructor
          · simp only [List.length_take]
            omega
          · intro i hi
            simp only [List.length_take] at hi
            have hia : i < a.length := by omega
            rw [getD_take_lt _ _ _ _ (by omega), getD_take_lt _ _ _ _ (by omega),
                ← ha0, ← hm0]
            obtain ⟨hl1, hrest⟩ := hinrange i hia
            refine ⟨hl1, ?_⟩
            intro j hj
            obtain ⟨hiff, hpadv, hvalv⟩ := hrest j hj
            refine ⟨?_, ?_, ?_⟩
            · constructor
              · intro hd
                rcases hd with hd | hd
                · omega
                · exact Or.inr (hiff.mp hd)
              · intro hd
                rcases hd with hd | hd
                · omega
                · exact Or.inr (hiff.mpr hd)
            · intro hd
              rcases hd with hd | hd
              · omega
              · exact hpadv hd
            · intro hd
              have hd2 : ¬ (a.getD i []).length ≤ j := by tauto
              exact hvalv hd2
        · -- exact fit
          simp only [Except.ok.injEq, Prod.mk.injEq] at heq2
          obtain ⟨hs2, hm2⟩ := heq2
          subst hs2; subst hm2
          constructor
          · omega
          · intro i hi
            have hia : i < a.length := by omega
            rw [← ha0, ← hm0]
            obtain ⟨hl1, hrest⟩ := hinrange i hia
            refine ⟨hl1, ?_⟩
            intro j hj
            obtain ⟨hiff, hpadv, hvalv⟩ := hrest j hj
            refine ⟨?_, ?_, ?_⟩
            · constructor
              · intro hd
                rcases hd with hd | hd
                · omega
                · exact Or.inr (hiff.mp hd)
              · intro hd
                rcases hd with hd | hd
                · omega
                · exact Or.inr (hiff.mpr hd)
            · intro hd
              rcases hd with hd | hd
              · omega
              · exact hpadv hd
            · intro hd
              have hd2 : ¬ (a.getD i []).length ≤ j := by tauto
              exact hvalv hd2

theorem getD_zip_eq (l1 l2 : List Doc) (b : Nat) (hb1 : b < l1.length) (hb2 : b < l2.length) :
    (l1.zip l2).getD b ([], []) = (l1.getD b [], l2.getD b []) := by
  induction l1 generalizing l2 b with
  | nil => simp at hb1
  | cons x l1 ih =>
    cases l2 with
    | nil => simp at hb2
    | cons y l2 =>
      cases b with
      | zero => rfl
      | succ b =>
        simp only [List.zip_cons_cons, List.getD_cons_succ]
        exact ih l2 b (by simpa using hb1) (by simpa using hb2)

theorem getD_map_proj {α : Type} (ps : List (Doc × Doc)) (f : Doc × Doc → α) (d0 : Doc × Doc)
    (b : Nat) (hb : b < ps.length) :
    (ps.map f).getD b (f d0) = f (ps.getD b d0) := by
  rw [List.getD_eq_getElem _ _ (by simpa using hb), List.getElem_map,
    List.getD_eq_getElem _ _ hb]

theorem CustomDataCollator.purePadAll_align (c : CustomDataCollator) (senLen docLen : Nat)
    (prs ps : List (Doc × Doc))
    (hwf : ∀ pr ∈ prs, pr.1.map List.length = pr.2.map List.length)
    (heq : c.purePadAll senLen docLen prs = .ok ps) :
    ps.length = prs.length ∧
    ∀ b, b < prs.length →
      docPadInvariant c.padTokenId (prs.getD b ([], [])).1 (prs.getD b ([], [])).2
        (ps.getD b ([], [])).1 (ps.getD b ([], [])).2 := by
  induction prs generalizing ps with
  | nil =>
    unfold CustomDataCollator.purePadAll at heq
    simp only [Except.ok.injEq] at heq
    subst heq
    exact ⟨rfl, by intro b hb; simp at hb⟩
  | cons pr rest ih =>
    unfold CustomDataCollator.purePadAll at heq
    cases hpp : c.purePad senLen docLen pr.1 pr.2 with
    | error e => simp only [hpp] at heq; exact absurd heq (by simp)
    | ok p =>
      simp only [hpp] at heq
      cases hpa : c.purePadAll senLen docLen rest with
      | error e => simp only [hpa] at heq; exact absurd heq (by simp)
      | ok ps0 =>
        simp only [hpa, Except.ok.injEq] at heq
        subst heq
        obtain ⟨hlen, hind⟩ := ih ps0 (fun x hx => hwf x (List.mem_cons_of_mem _ hx)) hpa
        refine ⟨by simp [hlen], ?_⟩
        intro b hb
        cases b with
        | zero =>
          simp only [List.getD_cons_zero]
          exact c.purePad_align senLen docLen pr.1 pr.2 p.1 p.2
            (hwf pr (List.mem_cons_self _ _)) (by rw [hpp])
        | succ b =>
          simp only [List.getD_cons_succ]
          exact hind b (by simpa using hb)

theorem CustomDataCollator.pureCallSlot_align (c : CustomDataCollator) (ak mk : String)
    (arts masks : List Doc) (ts tm : Tensor3)
    (hlen : arts.length = masks.length)
    (hwf : ∀ pr ∈ arts.zip masks, pr.1.map List.length = pr.2.map List.length)
    (heq : c.pureCallSlot ak mk arts masks = .ok (ts, tm)) :
    slotPadInvariant c.padTokenId arts masks ts tm := by
  unfold CustomDataCollator.pureCallSlot at heq
  by_cases hassert : ((arts.map fun d => d.map List.length).flatten
      = (masks.map fun d => d.map List.length).flatten)
  case neg =>
    simp only [if_neg hassert] at heq
    exact absurd heq (by simp)
  case pos =>
    simp only [if_pos hassert] at heq
    cases hmx : pyMax ((arts.map fun d => d.map List.length).flatten) with
    | error e => simp only [hmx] at heq; exact absurd heq (by simp)
    | ok mx =>
      simp only [hmx] at heq
      cases hmxd : pyMax (masks.map List.length) with
      | error e => simp only [hmxd] at heq; exact absurd heq (by simp)
      | ok mxd =>
        simp only [hmxd] at heq
        cases hpa : c.purePadAll (min c.max_sentence_len mx) (min c.max_document_len mxd)
            (arts.zip masks) with
        | error e => simp only [hpa] at heq; exact absurd heq (by simp)
        | ok pairs =>
          simp only [hpa] at heq
          obtain ⟨hplen, hall⟩ := c.purePadAll_align (min c.max_sentence_len mx)
            (min c.max_document_len mxd) (arts.zip masks) pairs hwf hpa
          cases ht1 : toTensor (pairs.map Prod.fst) with
          | error e => simp only [ht1] at heq; exact absurd heq (by simp)
          | ok ts0 =>
            simp only [ht1] at heq
            cases ht2 : toTensor (pairs.map Prod.snd) with
            | error e => simp only [ht2] at heq; exact absurd heq (by simp)
            | ok tm0 =>
              simp only [ht2, Except.ok.injEq, Prod.mk.injEq] at heq
              obtain ⟨hts, htm⟩ := heq
              subst hts; subst htm
              rw [toTensor_ok _ _ ht1, toTensor_ok _ _ ht2]
              have hzlen : (arts.zip masks).length = arts.length := by
                rw [List.length_zip, hlen, Nat.min_self]
              refine ⟨by simp [hplen, hzlen], by simp [hplen, hzlen], ?_⟩
              intro b hb
              have hbp : b < pairs.length := by omega
              have hbz : b < (arts.zip masks).length := by omega
              have h1 : (pairs.map Prod.fst).getD b [] = (pairs.getD b ([], [])).1 :=
                getD_map_proj pairs Prod.fst ([], []) b hbp
              have h2 : (pairs.map Prod.snd).getD b [] = (pairs.getD b ([], [])).2 :=
                getD_map_proj pairs Prod.snd ([], []) b hbp
              rw [h1, h2]
              have h3 := hall b hbz
              rw [getD_zip_eq arts masks b hb (by omega)] at h3
              exact h3

/-- **C5** (amended): for a batch of per-example well-formed records
(parallel token/mask length lists), each collated slot's token and mask
tensors have identical shape and identical padding positions: a position is
padding on the token side exactly when it is padding on the mask side,
token padding holds the pad id and mask padding holds `0` (document-level
padding rows are all-pad on both sides), and non-padded positions carry the
input values unchanged.  The per-example well-formedness hypothesis is
forced by the counterexample: the collator accepts some per-example
mismatched batches and then pads the two tensors at different positions. -/
theorem collator_padding_aligned (c : CustomDataCollator) (features : List Feature)
    (h : Heap) (hval : ∀ f ∈ features, FeatureValid h f)
    (ar1 mr1 ar2 mr2 : List Nat)
    (hl1 : mapLookup features "article_1" = .ok ar1)
    (hl2 : mapLookup features "mask_1" = .ok mr1)
    (hl3 : mapLookup features "article_2" = .ok ar2)
    (hl4 : mapLookup features "mask_2" = .ok mr2)
    (hwf1 : ∀ pr ∈ (ar1.map h.mem).zip (mr1.map h.mem),
      pr.1.map List.length = pr.2.map List.length)
    (hwf2 : ∀ pr ∈ (ar2.map h.mem).zip (mr2.map h.mem),
      pr.1.map List.length = pr.2.map List.length)
    (b : Batch) (h2 : Heap) (heq : c.call features h = .ok (b, h2)) :
    ∃ ts1 tm1 ts2 tm2 : Tensor3,
      b = [("article_1", ts1), ("mask_1", tm1), ("article_2", ts2), ("mask_2", tm2)] ∧
      slotPadInvariant c.padTokenId (ar1.map h.mem) (mr1.map h.mem) ts1 tm1 ∧
      slotPadInvariant c.padTokenId (ar2.map h.mem) (mr2.map h.mem) ts2 tm2 := by
  obtain ⟨s1, s2, hb, hp1, hp2⟩ :=
    c.call_ok_pure features h hval ar1 mr1 ar2 mr2 hl1 hl2 hl3 hl4 b h2 heq
  have hlen1 : (ar1.map h.mem).length = (mr1.map h.mem).length := by
    simp [mapLookup_length features _ _ hl1, mapLookup_length features _ _ hl2]
  have hlen2 : (ar2.map h.mem).length = (mr2.map h.mem).length := by
    simp [mapLookup_length features _ _ hl3, mapLookup_length features _ _ hl4]
  exact ⟨s1.1, s1.2, s2.1, s2.2, hb,
    c.pureCallSlot_align "article_1" "mask_1" _ _ s1.1 s1.2 hlen1 hwf1 (by rw [hp1]),
    c.pureCallSlot_align "article_2" "mask_2" _ _ s2.1 s2.2 hlen2 hwf2 (by rw [hp2])⟩

theorem collator_padding_aligned_witness :
    (∀ f ∈ exC5w_features, FeatureValid exC5w_heap f) ∧
    (∀ pr ∈ ([0].map exC5w_heap.mem).zip ([1].map exC5w_heap.mem),
      pr.1.map List.length = pr.2.map List.length) ∧
    (exC5w_c.call exC5w_features exC5w_heap).map Prod.fst = .ok exC5w_batch ∧
    slotPadInvariant exC5w_c.padTokenId ([0].map exC5w_heap.mem) ([1].map exC5w_heap.mem)
      [[[31, 32], [33, 0]]] [[[1, 1], [1, 0]]] := by
  have hv : ∀ f ∈ exC5w_features, FeatureValid exC5w_heap f := by decide
  have hfst : (exC5w_c.call exC5w_features exC5w_heap).map Prod.fst = .ok exC5w_batch := by
    rfl
  obtain ⟨p, hc⟩ : ∃ p, exC5w_c.call exC5w_features exC5w_heap = .ok p := by
    cases hcc : exC5w_c.call exC5w_features exC5w_heap with
    | error e => rw [hcc] at hfst; simp [Except.map] at hfst
    | ok q => exact ⟨q, rfl⟩
  have hb : p.1 = exC5w_batch := by
    rw [hc] at hfst
    simpa [Except.map] using hfst
  have hmain := collator_padding_aligned exC5w_c exC5w_features exC5w_heap hv
    [0] [1] [2] [3] (by rfl) (by rfl) (by rfl) (by rfl)
    (by decide) (by decide) p.1 p.2 (by rw [hc])
  rw [hb] at hmain
  obtain ⟨ts1, tm1, ts2, tm2, hbeq, hs1, hs2⟩ := hmain
  have he : ts1 = [[[31, 32], [33, 0]]] ∧ tm1 = [[[1, 1], [1, 0]]] := by
    have h0 := hbeq
    simp only [exC5w_batch, List.cons.injEq, Prod.mk.injEq] at h0
    exact ⟨h0.1.2.symm, h0.2.1.2.symm⟩
  refine ⟨hv, by decide, hfst, ?_⟩
  rw [← he.1, ← he.2]
  exact hs1

/-- **C10** (counterexample): constructing the hierarchical model with
`frozen = True` leaves the pooling projection's parameter with
`requires_grad = True`: `_freeze_lower` only touches
`lower_model.base_model.parameters()`, and `Pooler` is not inside
`base_model`. -/
theorem freeze_lower_misses_pooler :
    ¬ (∀ b ∈ (mkHiearchicalModel 1 1 1 true).lower_model.pooler, b = false) := by
  decide

/-- **C10** (amended): with `frozen = true`, construction disables gradient
flow exactly for the parameters of the lower encoder's transformer body
(`base_model`); the lower encoder's pooling projection and the upper
transformer encoder keep `requires_grad = true`.  With `frozen = false`, no
parameter's gradient flag is changed: all stay `true`. -/
theorem freeze_lower_exact (nBase nPooler nUpper : Nat) :
    (mkHiearchicalModel nBase nPooler nUpper true).lower_model.base_model
        = List.replicate nBase false
    ∧ (mkHiearchicalModel nBase nPooler nUpper true).lower_model.pooler
        = List.replicate nPooler true
    ∧ (mkHiearchicalModel nBase nPooler nUpper true).transformer_encoder
        = List.replicate nUpper true
    ∧ mkHiearchicalModel nBase nPooler nUpper false
        = { lower_model := { base_model := List.replicate nBase true,
                             pooler := List.replicate nPooler true },
            transformer_encoder := List.replicate nUpper true } := by
  refine ⟨?_, rfl, rfl, rfl⟩
  simp [mkHiearchicalModel, freeze_lower, List.map_replicate]

theorem cos_sim_shape (a b : List (List ℝ)) : matShape (cos_sim a b) a.length b.length := by
  constructor
  · simp [cos_sim]
  · intro row hrow
    obtain ⟨x, hx, rfl⟩ := List.mem_map.mp hrow
    simp

theorem scaleMatrix_shape (s : ℝ) (mat : List (List ℝ)) (r c : Nat)
    (h : matShape mat r c) : matShape (scaleMatrix s mat) r c := by
  obtain ⟨h1, h2⟩ := h
  constructor
  · simp [scaleMatrix, h1]
  · intro row hrow
    obtain ⟨x, hx, rfl⟩ := List.mem_map.mp hrow
    simp [h2 x hx]

/-- **C7** (confirmed; `cos_sim` modelled from the spec): the contrastive
loss is categorical cross-entropy of `S1` against diagonal labels plus
categorical cross-entropy of `S2` against diagonal labels, where row `i`'s
label is column `i` (`labels = range(len(scores_1))`).  Without hard
negatives `S1 = scale · cos_sim(anchor_batch, positive_batch)` of shape
`(N, N)` and `S2` is the role-swapped counterpart; with hard negatives
`S1 = scale · cos_sim(anchor_batch, concat(positive_batch, hard_neg_anchor))`
of shape `(N, N + H)` and symmetrically `S2` for the positive side. -/
theorem contrastive_loss_structure {Inp : Type} (m : ContrastiveModel Inp)
    (a1 k1 a2 k2 a3 k3 a4 k4 : Inp) (N : Nat)
    (hN1 : (m.hierarchical_model a1 k1).length = N)
    (hN2 : (m.hierarchical_model a2 k2).length = N) :
    (m.use_hard_negatives = false →
      m.forward a1 k1 a2 k2 none none none none
        = .ok (crossEntropyLossNat
            (scaleMatrix m.scale
              (cos_sim (m.hierarchical_model a1 k1) (m.hierarchical_model a2 k2)))
            (List.range N)
          + crossEntropyLossNat
            (scaleMatrix m.scale
              (cos_sim (m.hierarchical_model a2 k2) (m.hierarchical_model a1 k1)))
            (List.range N))
      ∧ matShape (scaleMatrix m.scale
          (cos_sim (m.hierarchical_model a1 k1) (m.hierarchical_model a2 k2))) N N)
    ∧ (m.use_hard_negatives = true →
      m.forward a1 k1 a2 k2 (some a3) (some k3) (some a4) (some k4)
        = .ok (crossEntropyLossNat
            (scaleMatrix m.scale (cos_sim (m.hierarchical_model a1 k1)
              (m.hierarchical_model a2 k2 ++ m.hierarchical_model a3 k3)))
            (List.range N)
          + crossEntropyLossNat
            (scaleMatrix m.scale (cos_sim (m.hierarchical_model a2 k2)
              (m.hierarchical_model a1 k1 ++ m.hierarchical_model a4 k4)))
            (List.range N))
      ∧ matShape (scaleMatrix m.scale (cos_sim (m.hierarchical_model a1 k1)
          (m.hierarchical_model a2 k2 ++ m.hierarchical_model a3 k3)))
          N (N + (m.hierarchical_model a3 k3).length)) := by
  constructor
  · intro hflag
    have hsh := scaleMatrix_shape m.scale
      (cos_sim (m.hierarchical_model a1 k1) (m.hierarchical_model a2 k2)) _ _
      (cos_sim_shape (m.hierarchical_model a1 k1) (m.hierarchical_model a2 k2))
    rw [hN1, hN2] at hsh
    constructor
    · unfold ContrastiveModel.forward
      rw [hflag]
      simp only [Bool.false_eq_true, if_false, hsh.1]
    · exact hsh
  · intro hflag
    have hsh := scaleMatrix_shape m.scale
      (cos_sim (m.hierarchical_model a1 k1)
        (m.hierarchical_model a2 k2 ++ m.hierarchical_model a3 k3)) _ _
      (cos_sim_shape (m.hierarchical_model a1 k1)
        (m.hierarchical_model a2 k2 ++ m.hierarchical_model a3 k3))
    rw [hN1] at hsh
    rw [show (m.hierarchical_model a2 k2 ++ m.hierarchical_model a3 k3).length
        = N + (m.hierarchical_model a3 k3).length by
      rw [List.length_append, hN2]] at hsh
    constructor
    · unfold ContrastiveModel.forward
      rw [hflag]
      simp only [if_true, hsh.1]
    · exact hsh

theorem contrastive_loss_structure_witness :
    (exC7_model.hierarchical_model () ()).length = 2 ∧
    exC7_model.use_hard_negatives = false ∧
    exC7_model.forward () () () () none none none none
      = .ok (crossEntropyLossNat
          (scaleMatrix exC7_model.scale
            (cos_sim (exC7_model.hierarchical_model () ()) (exC7_model.hierarchical_model () ())))
          (List.range 2)
        + crossEntropyLossNat
          (scaleMatrix exC7_model.scale
            (cos_sim (exC7_model.hierarchical_model () ()) (exC7_model.hierarchical_model () ())))
          (List.range 2)) ∧
    matShape (scaleMatrix exC7_model.scale
      (cos_sim (exC7_model.hierarchical_model () ()) (exC7_model.hierarchical_model () ()))) 2 2 := by
  have hmain := (contrastive_loss_structure exC7_model () () () () () () () () 2
    rfl rfl).1 rfl
  exact ⟨rfl, rfl, hmain.1, hmain.2⟩

/-- **C8** (confirmed): the classification loss branch is selected from the
label tensor's dtype and `num_labels`, never from the label values.  With
`num_labels > 1` and an integer-typed label the loss is categorical
cross-entropy over the logits; a float-typed label — any values, including
exactly `0.0`/`1.0` — always takes the per-label binary cross-entropy
branch, whatever `num_labels`; and with `num_labels = 1` the cross-entropy
branch is never taken (an integer-typed label is then handed to
`BCEWithLogitsLoss`, which rejects the dtype). -/
theorem classification_branch_on_dtype {Inp : Type}
    (m : HierarchicalClassificationModel Inp) (a1 k1 : Inp) :
    (∀ v : List Int, 1 < m.num_labels →
      m.forward a1 k1 (.longTensor v)
        = .ok (crossEntropyLossInt
            (((m.hierarchical_model a1 k1).map m.dropout).map m.classifier) v,
            ((m.hierarchical_model a1 k1).map m.dropout).map m.classifier)
      ∧ m.forward a1 k1 (.intTensor v)
        = .ok (crossEntropyLossInt
            (((m.hierarchical_model a1 k1).map m.dropout).map m.classifier) v,
            ((m.hierarchical_model a1 k1).map m.dropout).map m.classifier))
    ∧ (∀ v : List (List ℝ),
      m.forward a1 k1 (.floatTensor v)
        = .ok (bceWithLogitsLoss
            (((m.hierarchical_model a1 k1).map m.dropout).map m.classifier) v,
            ((m.hierarchical_model a1 k1).map m.dropout).map m.classifier))
    ∧ (m.num_labels = 1 → ∀ v : List Int,
      m.forward a1 k1 (.longTensor v)
        = .error (.runtimeError "Found dtype Long but expected Float")) := by
  refine ⟨?_, ?_, ?_⟩
  · intro v hn
    constructor
    · unfold HierarchicalClassificationModel.forward
      rw [if_pos ⟨hn, Or.inl rfl⟩]
    · unfold HierarchicalClassificationModel.forward
      rw [if_pos ⟨hn, Or.inr rfl⟩]
  · intro v
    unfold HierarchicalClassificationModel.forward
    rw [if_neg (by simp [Labels.dtype])]
  · intro hn v
    unfold HierarchicalClassificationModel.forward
    rw [if_neg (by simp [hn])]
